/-
Verification of the pydhcp DHCPv4/v6 library against its design document.

The Python sources are shallowly embedded: bytes become `List Nat` (each
element a byte value), machine integers become `Nat`/`Int` with explicit
`% 2 ^ w` where overflow matters, `datetime`/`timedelta` become `Nat`
timestamps, and fallible code returns `Except String`.

The wire-codec primitives used by the library live in the external
`pystructs` package whose sources are not part of this repository; they are
modelled from the design document (section 4.1) and from the behaviour
pinned by the repository's own unit tests, and are marked as such below.
-/
import Mathlib

set_option maxRecDepth 16384

namespace PyDhcp

/-! ## Wire codec primitives

Modelled from the spec: the `pystructs` cursor/codec package (unsigned
big-endian integers, signed 32-bit, IPv4 as 4 bytes, static-length byte
fields, length-prefixed byte fields, greedy byte runs and greedy lists) is
not part of this repository; definitions in this section follow section 4.1
of the design document.  Readers consume from the front of a byte list and
return the value together with the remaining bytes. -/

/-- Modelled from the spec: `pystructs` big-endian u16 encoder. -/
def bytesU16 (n : Nat) : List Nat :=
  [n / 256 % 256, n % 256]

/-- Modelled from the spec: `pystructs` big-endian u32 encoder. -/
def bytesU32 (n : Nat) : List Nat :=
  [n / 2 ^ 24 % 256, n / 2 ^ 16 % 256, n / 256 % 256, n % 256]

/-- Modelled from the spec: `pystructs` signed 32-bit (two's complement)
encoder. -/
def bytesI32 (i : Int) : List Nat :=
  bytesU32 (i % 2 ^ 32).toNat

/-- Modelled from the spec: u8 reader over a byte list. -/
def readU8 : List Nat → Except String (Nat × List Nat)
  | [] => .error "u8: out of data"
  | b :: rest => .ok (b, rest)

/-- Modelled from the spec: big-endian u16 reader. -/
def readU16 : List Nat → Except String (Nat × List Nat)
  | a :: b :: rest => .ok (a * 256 + b, rest)
  | _ => .error "u16: out of data"

/-- Modelled from the spec: big-endian u32 reader. -/
def readU32 : List Nat → Except String (Nat × List Nat)
  | a :: b :: c :: d :: rest =>
      .ok (a * 2 ^ 24 + b * 2 ^ 16 + c * 256 + d, rest)
  | _ => .error "u32: out of data"

/-- Modelled from the spec: signed 32-bit reader (two's complement). -/
def readI32 (l : List Nat) : Except String (Int × List Nat) :=
  match readU32 l with
  | .error e => .error e
  | .ok (v, rest) =>
      .ok (if v < 2 ^ 31 then (v : Int) else (v : Int) - 2 ^ 32, rest)

/-- Modelled from the spec: static-length byte field encoder, right-padded
with `0x00` to the declared width. -/
def staticBytesEnc (n : Nat) (b : List Nat) : List Nat :=
  b.take n ++ List.replicate (n - b.length) 0

/-- Strip trailing zero bytes.  The design document (section 4.1) claims the
static-field decoder preserves trailing zeros, but the repository's own unit
tests (`v4/tests/message.py`) pin the opposite behaviour: a 6-byte MAC is
recovered from the 16-byte `chaddr` field and `server_name` decodes to the
empty string; the decoder therefore strips trailing zeros. -/
def dropTrailingZeros (l : List Nat) : List Nat :=
  (l.reverse.dropWhile (fun b => b == 0)).reverse

/-- Modelled from the spec: static-length byte field reader (Python slice
semantics on the buffer, trailing zeros stripped per the repo's tests). -/
def readStatic (n : Nat) (l : List Nat) : (List Nat × List Nat) :=
  (dropTrailingZeros (l.take n), l.drop n)

/-! ## Enumerations (`pydhcp/enum.py`, `pydhcp/v4/enum.py`)

The Python `IntEnum`s are embedded as their numeric values together with a
membership test; converting a number that is not a member raises
`ValueError` in Python, which the readers below surface as `.error`. -/

/-- `OpCode` members (BootRequest=1, BootReply=2). -/
def isOpCode (n : Nat) : Bool :=
  n == 1 || n == 2

/-- `HwType` members (RFC 1700 hardware types 1..35). -/
def isHwType (n : Nat) : Bool :=
  1 ≤ n && n ≤ 35

/-- `MessageType` members (Discover=1 .. Inform=8). -/
def isMsgType (n : Nat) : Bool :=
  1 ≤ n && n ≤ 8

/-- `StatusCode` members (Success=0 .. ExcessiveTimeSkew=22). -/
def isStatusCode (n : Nat) : Bool :=
  n ≤ 22

/-- `Arch` members (RFC 4578 architecture codes 0..9). -/
def isArch (n : Nat) : Bool :=
  n ≤ 9

/-- The numeric members of `OptionCode` (`pydhcp/v4/enum.py`). -/
def optionCodeValues : List Nat :=
  (List.range 84) ++ [85, 86, 87, 88, 89, 90, 91, 92, 93, 94, 95]
    ++ [97, 98, 99, 100, 101, 108, 109, 112, 113, 114]
    ++ [116, 117, 118, 119, 120, 121, 122, 123, 124, 125]
    ++ [128, 129, 130, 131, 132, 133, 134, 135, 136, 137, 138, 139,
        140, 141, 142, 143, 144, 145, 146, 147, 148]
    ++ [150, 151, 152, 153, 154, 155, 156, 157, 158, 159, 161, 162, 163]
    ++ [175, 176, 177, 202, 203, 208, 209, 210, 211, 212, 213]
    ++ [220, 221, 240, 241, 249, 250, 251, 252, 255]

/-- Membership test for `OptionCode` (`OptionCode(n)` succeeds). -/
def isOptionCode (n : Nat) : Bool :=
  optionCodeValues.contains n

/-- `OptionCode.TFTPServerIPAddress` (128). -/
def tftpServerIPAddressCode : Nat := 128

/-- `OptionCode.PXELinuxPathPrefix` (210). -/
def pxeLinuxPathCode : Nat := 210

/-- `MessageType.Nak` (6). -/
def nakType : Nat := 6

/-! ## DHCPv4 options (`pydhcp/v4/options.py`)

Each concrete `Option` subclass becomes a constructor carrying its typed
payload.  `Unknown` covers codes that are valid `OptionCode` members but
have no registered class.  Constructor order mirrors the class definition
order in the source, which matters because `OPTION_MAP` is built from
`globals()` in definition order with later classes overwriting earlier ones
for a shared code (`MaxMessageSize` shadows `DHCPMessage` at code 56 and
`PXEPathPrefix` shadows `TFTPServerIP` at code 128). -/

inductive Opt where
  | subnetMask (mask : Nat)
  | timezoneOffset (offset : Int)
  | router (ips : List Nat)
  | timeServer (ips : List Nat)
  | inetNameServer (ips : List Nat)
  | domainNameServer (ips : List Nat)
  | logServer (ips : List Nat)
  | quoteServer (ips : List Nat)
  | lprServer (ips : List Nat)
  | hostname (h : List Nat)
  | domainName (d : List Nat)
  | broadcastAddr (addr : Nat)
  | vendorInfo (info : List Nat)
  | requestedIPAddr (ip : Nat)
  | ipLeaseTime (seconds : Nat)
  | dhcpMessageType (mtype : Nat)
  | serverIdentifier (ip : Nat)
  | paramRequestList (params : List Nat)
  | dhcpMessage (message : List Nat)
  | maxMessageSize (size : Nat)
  | renewalTime (seconds : Nat)
  | rebindTime (seconds : Nat)
  | vendorClassIdentifier (vendor : List Nat)
  | tftpServerName (name : List Nat)
  | dhcpStatusCode (value : Nat) (message : List Nat)
  | bootfileName (name : List Nat)
  | clientSystemArch (arches : List Nat)
  | dnsDomainSearchList (domains : List (List Nat))
  | tftpServerIP (ip : List Nat)
  | pxePathPfx (path : List Nat)
  | endOpt
  | unknown (code : Nat) (data : List Nat)
deriving DecidableEq, Repr

/-- The class-level `opcode` of each option (`pydhcp/v4/options.py`).  Note
the source assigns `OptionCode.Message` (56) to both `DHCPMessage` and
`MaxMessageSize`, and `OptionCode.TFTPServerIPAddress` (128) to both
`TFTPServerIP` and `PXEPathPrefix` (its docstring says 210). -/
def Opt.opcode : Opt → Nat
  | .subnetMask _ => 1
  | .timezoneOffset _ => 2
  | .router _ => 3
  | .timeServer _ => 4
  | .inetNameServer _ => 5
  | .domainNameServer _ => 6
  | .logServer _ => 7
  | .quoteServer _ => 8
  | .lprServer _ => 9
  | .hostname _ => 12
  | .domainName _ => 15
  | .broadcastAddr _ => 28
  | .vendorInfo _ => 43
  | .requestedIPAddr _ => 50
  | .ipLeaseTime _ => 51
  | .dhcpMessageType _ => 53
  | .serverIdentifier _ => 54
  | .paramRequestList _ => 55
  | .dhcpMessage _ => 56
  | .maxMessageSize _ => 56
  | .renewalTime _ => 58
  | .rebindTime _ => 59
  | .vendorClassIdentifier _ => 60
  | .tftpServerName _ => 66
  | .dhcpStatusCode _ _ => 151
  | .bootfileName _ => 67
  | .clientSystemArch _ => 93
  | .dnsDomainSearchList _ => 119
  | .tftpServerIP _ => 128
  | .pxePathPfx _ => 128
  | .endOpt => 255
  | .unknown code _ => code

/-! ### Domain-name codec

Modelled from the spec: the RFC 1035 style domain-name codec used by the
DNS domain search list option lives in `pystructs`; the design document
describes it in one sentence (section 4.1).  A dotted name is emitted as
length-prefixed labels terminated by a zero byte; the reader collects
labels until the zero terminator (compression pointers are never emitted
by the encoder and are not modelled). -/

def splitDotAux : List Nat → List Nat → List (List Nat)
  | [], acc => [acc.reverse]
  | 46 :: rest, acc => acc.reverse :: splitDotAux rest []
  | b :: rest, acc => splitDotAux rest (b :: acc)

/-- Split a dotted byte string into its labels (on byte 46, a dot). -/
def splitDot (l : List Nat) : List (List Nat) :=
  splitDotAux l []

/-- Join labels back into a dotted byte string. -/
def joinDot : List (List Nat) → List Nat
  | [] => []
  | [l] => l
  | l :: rest => l ++ 46 :: joinDot rest

/-- Modelled from the spec: encode the labels of one domain name,
length-prefixed, with a zero terminator. -/
def packLabels : List (List Nat) → List Nat
  | [] => [0]
  | l :: rest => (l.length % 256) :: l ++ packLabels rest

/-- Modelled from the spec: encoder for one domain name. -/
def encodeDomain (d : List Nat) : List Nat :=
  packLabels (splitDot d)

/-- Modelled from the spec: encoder for the greedy list of domain names. -/
def encodeDomainList : List (List Nat) → List Nat
  | [] => []
  | d :: rest => encodeDomain d ++ encodeDomainList rest

/-- Modelled from the spec: read length-prefixed labels up to the zero
terminator, returning the labels and the remaining bytes. -/
def readLabels : List Nat → Except String (List (List Nat) × List Nat)
  | [] => .error "domain: out of data"
  | 0 :: rest => .ok ([], rest)
  | n :: rest =>
      if rest.length < n then .error "domain: label out of data"
      else
        match readLabels (rest.drop n) with
        | .error e => .error e
        | .ok (ls, r) => .ok (rest.take n :: ls, r)
termination_by l => l.length
decreasing_by
  simp only [List.length_cons]
  exact Nat.lt_succ_of_le (List.length_drop _ _ ▸ Nat.sub_le _ _)

theorem readLabels_shrink (l : List Nat) (ls : List (List Nat)) (r : List Nat)
    (h : readLabels l = .ok (ls, r)) : r.length < l.length := by
  have main : ∀ (k : Nat) (l : List Nat), l.length ≤ k →
      ∀ ls r, readLabels l = .ok (ls, r) → r.length < l.length := by
    intro k
    induction k with
    | zero =>
        intro l hl ls r h
        have hnil : l = [] := List.eq_nil_of_length_eq_zero (Nat.le_zero.mp hl)
        subst hnil
        simp [readLabels] at h
    | succ k ih =>
        intro l hl ls r h
        match l with
        | [] => simp [readLabels] at h
        | 0 :: rest =>
            simp [readLabels] at h
            obtain ⟨h1, h2⟩ := h
            subst h2
            simp
        | (n + 1) :: rest =>
            simp only [readLabels] at h
            split at h
            · exact absurd h (by simp)
            · split at h
              · exact absurd h (by simp)
              · rename_i ls' r' heq
                simp only [Except.ok.injEq, Prod.mk.injEq] at h
                obtain ⟨h1, h2⟩ := h
                subst h2
                have hlen : (rest.drop (n + 1)).length ≤ k := by
                  simp only [List.length_cons] at hl
                  rw [List.length_drop]
                  omega
                have hrec := ih (rest.drop (n + 1)) hlen ls' r' heq
                rw [List.length_drop] at hrec
                simp only [List.length_cons]
                omega
  exact main l.length l le_rfl ls r h

/-- Modelled from the spec: greedy list of domain names (consume the whole
option payload). -/
def readDomains (l : List Nat) : Except String (List (List Nat)) :=
  match l with
  | [] => .ok []
  | b :: rest =>
      match h : readLabels (b :: rest) with
      | .error e => .error e
      | .ok (ls, r) =>
          have : r.length < (b :: rest).length := readLabels_shrink _ _ _ h
          match readDomains r with
          | .error e => .error e
          | .ok ds => .ok (joinDot ls :: ds)
termination_by l.length

/-! ### Greedy fixed-width lists -/

/-- Modelled from the spec: encoder for a greedy list of IPv4 addresses. -/
def packIPv4List : List Nat → List Nat
  | [] => []
  | ip :: rest => bytesU32 ip ++ packIPv4List rest

/-- Modelled from the spec: greedy reader for a list of IPv4 addresses. -/
def readIPv4s : List Nat → Except String (List Nat)
  | [] => .ok []
  | a :: b :: c :: d :: rest =>
      match readIPv4s rest with
      | .error e => .error e
      | .ok ips => .ok ((a * 2 ^ 24 + b * 2 ^ 16 + c * 256 + d) :: ips)
  | _ => .error "ipv4: out of data"

/-- Modelled from the spec: encoder for a greedy list of u16 values. -/
def packU16List : List Nat → List Nat
  | [] => []
  | v :: rest => bytesU16 v ++ packU16List rest

/-- Modelled from the spec: greedy reader for 16-bit `Arch` enum values
(`ClientSystemArch.arches`); a value outside the enum raises. -/
def readArches : List Nat → Except String (List Nat)
  | [] => .ok []
  | a :: b :: rest =>
      if isArch (a * 256 + b) then
        match readArches rest with
        | .error e => .error e
        | .ok vs => .ok ((a * 256 + b) :: vs)
      else .error "invalid arch"
  | _ => .error "arch: out of data"

/-- Modelled from the spec: greedy reader for u8 `OptionCode` values
(`ParamRequestList.params`); a value outside the enum raises. -/
def readParamCodes : List Nat → Except String (List Nat)
  | [] => .ok []
  | b :: rest =>
      if isOptionCode b then
        match readParamCodes rest with
        | .error e => .error e
        | .ok vs => .ok (b :: vs)
      else .error "invalid option code"

/-! ### Option pack/unpack (`pack_option` / `unpack_option`) -/

/-- The per-option payload serializer (`Option.pack` on each concrete
class in `pydhcp/v4/options.py`). -/
def packPayload : Opt → List Nat
  | .subnetMask m => bytesU32 m
  | .timezoneOffset i => bytesI32 i
  | .router ips => packIPv4List ips
  | .timeServer ips => packIPv4List ips
  | .inetNameServer ips => packIPv4List ips
  | .domainNameServer ips => packIPv4List ips
  | .logServer ips => packIPv4List ips
  | .quoteServer ips => packIPv4List ips
  | .lprServer ips => packIPv4List ips
  | .hostname h => h
  | .domainName d => d
  | .broadcastAddr a => bytesU32 a
  | .vendorInfo i => i
  | .requestedIPAddr ip => bytesU32 ip
  | .ipLeaseTime s => bytesU32 s
  | .dhcpMessageType t => [t % 256]
  | .serverIdentifier ip => bytesU32 ip
  | .paramRequestList ps => ps.map (fun p => p % 256)
  | .dhcpMessage m => m
  | .maxMessageSize s => bytesU16 s
  | .renewalTime s => bytesU32 s
  | .rebindTime s => bytesU32 s
  | .vendorClassIdentifier v => v
  | .tftpServerName n => n
  | .dhcpStatusCode v m => v % 256 :: m
  | .bootfileName n => n
  | .clientSystemArch as => packU16List as
  | .dnsDomainSearchList ds => encodeDomainList ds
  | .tftpServerIP ip => ip
  | .pxePathPfx p => p
  | .endOpt => []
  | .unknown _ data => data

/-- Modelled from the spec: the `HintedBytes(U8)` length-prefixed field of
`OptionHeader`.  Design note (section 9): on overflow the encoder truncates
the payload at 252 bytes and appends `...` (three 0x2E bytes). -/
def hintedBytesEnc (b : List Nat) : List Nat :=
  if 255 < b.length then 255 :: (b.take 252 ++ [46, 46, 46])
  else b.length :: b

/-- `pack_option`: serialize `code, length, payload`
(`pydhcp/v4/options.py`, `OptionHeader`). -/
def packOption (o : Opt) : List Nat :=
  o.opcode :: hintedBytesEnc (packPayload o)

/-- Serialize each option of a list in order (`Message.pack` loop). -/
def packOptions : List Opt → List Nat
  | [] => []
  | o :: rest => packOption o ++ packOptions rest

/-- The registry dispatch (`OPTION_MAP`): decode one option payload under a
fresh sub-context.  Codes 56 and 128 dispatch to `MaxMessageSize` and
`PXEPathPrefix` because those classes are defined after `DHCPMessage` and
`TFTPServerIP` and overwrite them in the `globals()`-built map.  A valid
code with no registered class decodes to `Unknown`. -/
def decodePayload (code : Nat) (payload : List Nat) : Except String Opt :=
  if code = 1 then (readU32 payload).map (fun v => .subnetMask v.1)
  else if code = 2 then (readI32 payload).map (fun v => .timezoneOffset v.1)
  else if code = 3 then (readIPv4s payload).map .router
  else if code = 4 then (readIPv4s payload).map .timeServer
  else if code = 5 then (readIPv4s payload).map .inetNameServer
  else if code = 6 then (readIPv4s payload).map .domainNameServer
  else if code = 7 then (readIPv4s payload).map .logServer
  else if code = 8 then (readIPv4s payload).map .quoteServer
  else if code = 9 then (readIPv4s payload).map .lprServer
  else if code = 12 then .ok (.hostname payload)
  else if code = 15 then .ok (.domainName payload)
  else if code = 28 then (readU32 payload).map (fun v => .broadcastAddr v.1)
  else if code = 43 then .ok (.vendorInfo payload)
  else if code = 50 then (readU32 payload).map (fun v => .requestedIPAddr v.1)
  else if code = 51 then (readU32 payload).map (fun v => .ipLeaseTime v.1)
  else if code = 53 then
    match readU8 payload with
    | .error e => .error e
    | .ok (t, _) =>
        if isMsgType t then .ok (.dhcpMessageType t)
        else .error "invalid message type"
  else if code = 54 then (readU32 payload).map (fun v => .serverIdentifier v.1)
  else if code = 55 then (readParamCodes payload).map .paramRequestList
  else if code = 56 then (readU16 payload).map (fun v => .maxMessageSize v.1)
  else if code = 58 then (readU32 payload).map (fun v => .renewalTime v.1)
  else if code = 59 then (readU32 payload).map (fun v => .rebindTime v.1)
  else if code = 60 then .ok (.vendorClassIdentifier payload)
  else if code = 66 then .ok (.tftpServerName payload)
  else if code = 67 then .ok (.bootfileName payload)
  else if code = 93 then (readArches payload).map .clientSystemArch
  else if code = 119 then (readDomains payload).map .dnsDomainSearchList
  else if code = 128 then .ok (.pxePathPfx payload)
  else if code = 151 then
    match readU8 payload with
    | .error e => .error e
    | .ok (v, rest) =>
        if isStatusCode v then .ok (.dhcpStatusCode v rest)
        else .error "invalid status code"
  else if code = 255 then .ok .endOpt
  else .ok (.unknown code payload)

/-- `unpack_option`: read `code:u8, length:u8, payload[length]` and decode
the payload via the registry.  An undefined numeric code raises a
`ValueError` in the `OptionCode` conversion.  The payload slice follows
Python slicing (silently truncated at the end of the buffer). -/
def unpackOption : List Nat → Except String (Opt × List Nat)
  | [] => .error "option: out of data"
  | [_] => .error "option: missing length"
  | code :: len :: rest =>
      if isOptionCode code then
        match decodePayload code (rest.take len) with
        | .error e => .error e
        | .ok o => .ok (o, rest.drop len)
      else .error "invalid option code"

theorem unpackOption_shrink (l : List Nat) (o : Opt) (r : List Nat)
    (h : unpackOption l = .ok (o, r)) : r.length + 2 ≤ l.length := by
  match l with
  | [] => simp [unpackOption] at h
  | [_] => simp [unpackOption] at h
  | code :: len :: rest =>
      rw [unpackOption] at h
      split at h
      · split at h
        · exact absurd h (by simp)
        · simp only [Except.ok.injEq, Prod.mk.injEq] at h
          have : r.length ≤ rest.length := by
            rw [← h.2, List.length_drop]; exact Nat.sub_le _ _
          simp only [List.length_cons]
          omega
      · exact absurd h (by simp)

/-- The option-reading loop of `Message.unpack`: read options while the
byte at the cursor is neither `0` (Pad) nor `255` (End); an exhausted
buffer raises `IndexError` on the peek. -/
def parseOptions (l : List Nat) : Except String (List Opt) :=
  match l with
  | [] => .error "index out of range"
  | b :: rest =>
      if b = 0 ∨ b = 255 then .ok []
      else
        match h : unpackOption (b :: rest) with
        | .error e => .error e
        | .ok (o, r) =>
            have : r.length < (b :: rest).length := by
              have := unpackOption_shrink _ _ _ h
              simp only [List.length_cons] at this ⊢
              omega
            match parseOptions r with
            | .error e => .error e
            | .ok os => .ok (o :: os)
termination_by l.length

/-! ## OptionList (`pydhcp/abc.py`)

A hybrid list/dictionary: `data` is the ordered option list, `opcodes`
mirrors the Python `set` of codes (modelled as a duplicate-free list whose
order is irrelevant, only membership is consulted). -/

structure OptionList where
  data : List Opt
  opcodes : List Nat
deriving DecidableEq, Repr

/-- `OptionList()` with no initial data. -/
def olEmpty : OptionList := ⟨[], []⟩

/-- Python `set.add`. -/
def setAdd (s : List Nat) (c : Nat) : List Nat :=
  if c ∈ s then s else s ++ [c]

/-- Python `set.remove` (the caller checks membership first). -/
def setRemove (s : List Nat) (c : Nat) : List Nat :=
  s.filter (fun x => x ≠ c)

/-- The replacement loop of `OptionList.append`: overwrite the first entry
sharing the opcode (no change when none does). -/
def replaceFirstByCode : List Opt → Opt → List Opt
  | [], _ => []
  | o :: rest, v =>
      if o.opcode = v.opcode then v :: rest
      else o :: replaceFirstByCode rest v

/-- `OptionList.append`: append when the code is new, otherwise replace the
existing entry in place. -/
def olAppend (l : OptionList) (v : Opt) : OptionList :=
  if v.opcode ∈ l.opcodes then ⟨replaceFirstByCode l.data v, l.opcodes⟩
  else ⟨l.data ++ [v], setAdd l.opcodes v.opcode⟩

/-- `OptionList.extend`: append each value in turn. -/
def olExtend (l : OptionList) (vs : List Opt) : OptionList :=
  vs.foldl olAppend l

/-- `OptionList(data)`: the constructor extends an empty list. -/
def olInit (vs : List Opt) : OptionList :=
  olExtend olEmpty vs

/-- The scan loop of `OptionList.find` (enumerate from a start index and
return the index of the first element equal to the value). -/
def findEqIdx : List Opt → Opt → Nat → Option Nat
  | [], _, _ => none
  | o :: rest, v, i => if o = v then some i else findEqIdx rest v (i + 1)

/-- `OptionList.find`: index of the first element equal to the value. -/
def olFind (l : OptionList) (v : Opt) : Option Nat :=
  findEqIdx l.data v 0

/-- Python `list.remove`: drop the first equal element. -/
def listRemoveFirst : List Opt → Opt → List Opt
  | [], _ => []
  | o :: rest, v => if o = v then rest else o :: listRemoveFirst rest v

/-- Python `list.insert` (non-negative index, clamped to the length). -/
def pyListInsert (l : List Opt) (idx : Nat) (v : Opt) : List Opt :=
  l.take idx ++ v :: l.drop idx

/-- `OptionList.insert`: if an element *equal by value* is present it is
removed first (`find` compares whole options, not codes); the value is then
inserted at the index and its code added to the set. -/
def olInsert (l : OptionList) (idx : Nat) (v : Opt) : OptionList :=
  match olFind l v with
  | some _ => ⟨pyListInsert (listRemoveFirst l.data v) idx v,
              setAdd l.opcodes v.opcode⟩
  | none => ⟨pyListInsert l.data idx v, setAdd l.opcodes v.opcode⟩

/-- `OptionList.remove`: `list.remove` (ValueError when absent) then
`set.remove` (KeyError when absent). -/
def olRemove (l : OptionList) (v : Opt) : Except String OptionList :=
  if v ∈ l.data then
    if v.opcode ∈ l.opcodes then
      .ok ⟨listRemoveFirst l.data v, setRemove l.opcodes v.opcode⟩
    else .error "KeyError"
  else .error "ValueError"

/-- `OptionList.setdefault`: no-op when the code is present; otherwise
append, or insert at the given index. -/
def olSetdefault (l : OptionList) (v : Opt) (idx : Option Nat) : OptionList :=
  if v.opcode ∈ l.opcodes then l
  else
    match idx with
    | none => olAppend l v
    | some i => olInsert l i v

/-- `OptionList.get` by numeric key: first data entry with that opcode when
the key is in the set, else the (None) default. -/
def olGet (l : OptionList) (code : Nat) : Option Opt :=
  if code ∈ l.opcodes then l.data.find? (fun o => o.opcode == code)
  else none

/-! ## Message (`pydhcp/v4/message.py`) -/

/-- The DHCP magic cookie `0x63 0x82 0x53 0x63`. -/
def magicCookie : List Nat := [99, 130, 83, 99]

structure Message where
  op : Nat
  id : Nat
  client_hw : List Nat
  options : OptionList
  hw_type : Nat := 1
  hops : Nat := 0
  seconds : Nat := 0
  flags : Nat := 0
  client_addr : Nat := 0
  your_addr : Nat := 0
  server_addr : Nat := 0
  gateway_addr : Nat := 0
  server_name : List Nat := []
  boot_file : List Nat := []
deriving DecidableEq, Repr

/-- The 236-byte fixed header plus the magic cookie (`MessageHeader.pack`):
`hw_length` is the length of the supplied hardware address, and the three
static byte fields are zero-padded to 16/64/128 bytes. -/
def packHeader (m : Message) : List Nat :=
  [m.op % 256, m.hw_type % 256, m.client_hw.length % 256, m.hops % 256]
  ++ bytesU32 m.id ++ bytesU16 m.seconds ++ bytesU16 m.flags
  ++ bytesU32 m.client_addr ++ bytesU32 m.your_addr
  ++ bytesU32 m.server_addr ++ bytesU32 m.gateway_addr
  ++ staticBytesEnc 16 m.client_hw ++ staticBytesEnc 64 m.server_name
  ++ staticBytesEnc 128 m.boot_file ++ magicCookie

/-- Does the option list already carry an `End` option? -/
def containsEnd (os : List Opt) : Bool :=
  os.any (fun o => o.opcode == 255)

/-- `Message.pack`: header, then each option in list order, then a single
`End` byte unless an `End` option is already present.  No padding is
applied. -/
def packMessage (m : Message) : List Nat :=
  packHeader m ++ packOptions m.options.data
    ++ (if containsEnd m.options.data then [] else [255])

/-- `Message.unpack`: decode the header, check the magic cookie, then read
options until a `0`/`255` byte.  Faithfully to the source, the decoded
`server_addr` is *not* passed to the constructor, so the field keeps its
`0.0.0.0` default even when the wire carries a non-zero `siaddr`; the
decoded `hw_length` is likewise ignored. -/
def unpackMessage (raw : List Nat) : Except String Message :=
  match readU8 raw with
  | .error e => .error e
  | .ok (op, r1) =>
  if isOpCode op then
  match readU8 r1 with
  | .error e => .error e
  | .ok (hwType, r2) =>
  if isHwType hwType then
  match readU8 r2 with
  | .error e => .error e
  | .ok (_hwLength, r3) =>
  match readU8 r3 with
  | .error e => .error e
  | .ok (hops, r4) =>
  match readU32 r4 with
  | .error e => .error e
  | .ok (mid, r5) =>
  match readU16 r5 with
  | .error e => .error e
  | .ok (secs, r6) =>
  match readU16 r6 with
  | .error e => .error e
  | .ok (flags, r7) =>
  match readU32 r7 with
  | .error e => .error e
  | .ok (caddr, r8) =>
  match readU32 r8 with
  | .error e => .error e
  | .ok (yaddr, r9) =>
  match readU32 r9 with
  | .error e => .error e
  | .ok (_saddr, r10) =>
  match readU32 r10 with
  | .error e => .error e
  | .ok (gaddr, r11) =>
  match readStatic 16 r11 with
  | (hwAddr, r12) =>
  match readStatic 64 r12 with
  | (sname, r13) =>
  match readStatic 128 r13 with
  | (bfile, r14) =>
  if r14.take 4 = magicCookie then
    match parseOptions (r14.drop 4) with
    | .error e => .error e
    | .ok os =>
        .ok { op := op, id := mid, client_hw := hwAddr,
              options := olInit os, hw_type := hwType, hops := hops,
              seconds := secs, flags := flags, client_addr := caddr,
              your_addr := yaddr, gateway_addr := gaddr,
              server_name := sname, boot_file := bfile }
  else .error "bad magic cookie"
  else .error "invalid hw type"
  else .error "invalid opcode"

/-- `Message.requested_address`: value of the `RequestedIPAddr` option. -/
def requestedAddress (m : Message) : Option Nat :=
  match olGet m.options 50 with
  | some (.requestedIPAddr ip) => some ip
  | _ => none

/-! ## Memory lease backend (`pydhcp/v4/server/backend/memory.py`)

`datetime`/`timedelta` values become `Nat` timestamps/durations and the
current time is passed explicitly.  An `IPv4Interface` is an
(address, netmask) pair.  Hardware addresses are keyed by `client_hw.hex()`
in the source; byte lists are used directly here (hex encoding is
injective). -/

/-- `MemoryRecord`: one IP assignment (interface plus optional overrides). -/
structure MemoryRecord where
  ipaddr : Nat × Nat
  dns : Option (List Nat) := none
  lease : Option Nat := none
  gateway : Option Nat := none
deriving DecidableEq, Repr

/-- `Record`: a `MemoryRecord` with its expiry time. -/
structure LeaseRecord where
  record : MemoryRecord
  expires : Nat
deriving DecidableEq, Repr

/-- Modelled from the spec: an `ipaddress.IPv4Network` as network address
plus mask length. -/
structure Net where
  netaddr : Nat
  maskLen : Nat
deriving DecidableEq, Repr

/-- The numeric netmask of a network. -/
def Net.netmask (n : Net) : Nat :=
  2 ^ 32 - 2 ^ (32 - n.maskLen)

/-- Modelled from the spec: `IPv4Network.hosts()` walks the usable host
range, i.e. every address strictly between the network and broadcast
addresses (the design document's section 8 pins `/29` hosts to `.1`-`.6`). -/
def Net.hostsList (n : Net) : List Nat :=
  (List.range (2 ^ (32 - n.maskLen) - 2)).map (fun i => n.netaddr + 1 + i)

/-- `MemoryBackend` state: network pool, reserved data, static
reservations, active leases, the host iterator's remaining addresses, and
the reclaimed list. -/
structure MemoryBackend where
  network : Net
  dns : List Nat
  gateway : Nat
  default_lease : Nat
  static : List (List Nat × MemoryRecord) := []
  records : List (List Nat × LeaseRecord) := []
  addresses : List Nat
  reclaimed : List (Nat × Nat) := []
deriving DecidableEq, Repr

/-- Python `dict.get` over the lease map. -/
def lookupRec (rs : List (List Nat × LeaseRecord)) (k : List Nat) :
    Option LeaseRecord :=
  match rs.find? (fun p => p.1 == k) with
  | some p => some p.2
  | none => none

/-- Python `dict.get` over the static map. -/
def lookupStatic (rs : List (List Nat × MemoryRecord)) (k : List Nat) :
    Option MemoryRecord :=
  match rs.find? (fun p => p.1 == k) with
  | some p => some p.2
  | none => none

/-- Python `dict[k] = v`: replace in place or append. -/
def updateRec : List (List Nat × LeaseRecord) → List Nat → LeaseRecord →
    List (List Nat × LeaseRecord)
  | [], k, v => [(k, v)]
  | (k', v') :: rest, k, v =>
      if k' = k then (k, v) :: rest else (k', v') :: updateRec rest k v

/-- Python `list.remove` on the reclaimed list (first occurrence). -/
def removeIface : List (Nat × Nat) → (Nat × Nat) → List (Nat × Nat)
  | [], _ => []
  | a :: rest, v => if a = v then rest else a :: removeIface rest v

/-- Python `record.lease or default`: a zero duration is falsy. -/
def leaseOrDefault (l : Option Nat) (d : Nat) : Nat :=
  match l with
  | some t => if t = 0 then d else t
  | none => d

/-- Python `record.dns or default`: `None` and the empty list are falsy. -/
def pyOrList (o : Option (List Nat)) (d : List Nat) : List Nat :=
  match o with
  | some l => if l = [] then d else l
  | none => d

/-- The host-iterator loop of `next_ip`: advance while the drawn address
equals the gateway; `StopIteration` yields none.  Returns the surviving
address and the iterator's remaining elements. -/
def findSkip : List Nat → Nat → Option (Nat × List Nat)
  | [], _ => none
  | a :: rest, g => if a = g then findSkip rest g else some (a, rest)

/-- The requested-ip / reclaimed / host-iterator part of `next_ip`
(everything after the renewal check). -/
def nextIpTail (st : MemoryBackend) (request : Message) :
    Option (Nat × Nat) × MemoryBackend :=
  let fromPool : Option (Nat × Nat) × MemoryBackend :=
    match st.reclaimed with
    | a :: rest => (some a, { st with reclaimed := rest })
    | [] =>
        match findSkip st.addresses st.gateway with
        | some (ip, rest) =>
            (some (ip, st.network.netmask), { st with addresses := rest })
        | none => (none, { st with addresses := [] })
  match requestedAddress request with
  | some ip =>
      let addr := (ip, st.network.netmask)
      if addr ∈ st.reclaimed then
        (some addr, { st with reclaimed := removeIface st.reclaimed addr })
      else fromPool
  | none => fromPool

/-- `MemoryBackend.next_ip`: renew an unexpired existing lease (refreshing
its expiry), otherwise honour a reclaimed requested ip, otherwise pop the
first reclaimed interface, otherwise draw from the host iterator skipping
the gateway. -/
def nextIp (now : Nat) (st : MemoryBackend) (request : Message) :
    Option (Nat × Nat) × MemoryBackend :=
  let hwaddr := request.client_hw
  match lookupRec st.records hwaddr with
  | some record =>
      if now ≤ record.expires then
        let lease := leaseOrDefault record.record.lease st.default_lease
        let renewed : LeaseRecord := { record with expires := now + lease }
        (some record.record.ipaddr,
         { st with records := updateRec st.records hwaddr renewed })
      else nextIpTail st request
  | none => nextIpTail st request

/-- `Message.reply`: a `BootReply` carrying the request's id, hardware
address and type, plus the keyword overrides used by `assign`. -/
def replyMessage (request : Message) (yourAddr : Nat) (opts : List Opt) :
    Message :=
  { op := 2, id := request.id, client_hw := request.client_hw,
    hw_type := request.hw_type, options := olInit opts,
    your_addr := yourAddr }

/-- ASCII bytes of `b'all addresses in use'`. -/
def allAddrInUseMsg : List Nat :=
  [97, 108, 108, 32, 97, 100, 100, 114, 101, 115, 115, 101, 115,
   32, 105, 110, 32, 117, 115, 101]

/-- `MemoryBackend.assign`: grab the next ip; on exhaustion reply with
`StatusCode(NoAddrsAvail)`; otherwise build the reply from the *static*
record when one exists for the client (else a fresh `MemoryRecord` around
the granted interface) and store that record in the lease map. -/
def assign (now : Nat) (st : MemoryBackend) (request : Message) :
    Message × MemoryBackend :=
  let hwaddr := request.client_hw
  let res := nextIp now st request
  match res.1 with
  | none =>
      (replyMessage request 0 [Opt.dhcpStatusCode 2 allAddrInUseMsg], res.2)
  | some ipaddr =>
      let st1 := res.2
      let record :=
        match lookupStatic st1.static hwaddr with
        | some r => r
        | none => { ipaddr := ipaddr }
      let lease := leaseOrDefault record.lease st1.default_lease
      let response := replyMessage request ipaddr.1
        [Opt.domainNameServer (pyOrList record.dns st1.dns),
         Opt.router [record.gateway.getD st1.gateway],
         Opt.subnetMask ipaddr.2,
         Opt.ipLeaseTime lease]
      (response,
       { st1 with records := updateRec st1.records hwaddr ⟨record, now + lease⟩ })

/-! ## Session error handling (`pydhcp/v4/server/server.py`)

`Session.data_recieved` dispatches on the message type and guards the
handler call.  The handler either returns an optional response or raises;
when it raises, the local `response` variable is still `None` (the
assignment never completed), so a default response is synthesized and
`DHCPMessageType(Nak)` plus `StatusCode(code, msg)` are appended via
`options.extend`.  The handler outcome is passed in as a value. -/

/-- A raised `DhcpError`: status code plus rendered message bytes. -/
structure DhcpError where
  code : Nat
  msg : List Nat
deriving DecidableEq, Repr

/-- `Session.default_response`: a `BootReply` with the request's id and
hardware address and an empty option list. -/
def defaultResponse (req : Message) : Message :=
  { op := 2, id := req.id, client_hw := req.client_hw, options := olEmpty }

/-- The response handed to `send` by `data_recieved`'s `try`/`except
DhcpError`/`finally` logic (`None` means the writer is closed instead). -/
def sessionRespond (request : Message)
    (result : Except DhcpError (Option Message)) : Option Message :=
  match result with
  | .ok r => r
  | .error e =>
      let response := defaultResponse request
      some { response with
             options := olExtend response.options
               [Opt.dhcpMessageType nakType,
                Opt.dhcpStatusCode e.code e.msg] }

/-! ## DHCPv6 DUIDs (`pydhcp/v6/duid.py`) -/

inductive DUID where
  | linkLayerPlusTime (hw_type : Nat) (time : Nat) (address : List Nat)
  | enterpriseNumber (en : Nat) (en_contd : Nat) (identifier : List Nat)
  | linkLayer (hw_type : Nat) (address : List Nat)
  | uniqueIdentifier (uuid : List Nat)
deriving DecidableEq, Repr

/-- The class-level `duid` type tag (`DuidType` members 1..4). -/
def DUID.duid : DUID → Nat
  | .linkLayerPlusTime _ _ _ => 1
  | .enterpriseNumber _ _ _ => 2
  | .linkLayer _ _ => 3
  | .uniqueIdentifier _ => 4

/-- `DuidType` membership (`dhcp/v6/enum.py`: values 1..4). -/
def isDuidType (n : Nat) : Bool :=
  1 ≤ n && n ≤ 4

/-- Body serialization of each DUID struct.  (The source wraps
`LinkLayerPlusTime.time` in a local-timezone `Datetime` on decode; the raw
u32 seconds value is kept here, which does not affect the settled claim.) -/
def duidBodyEnc : DUID → List Nat
  | .linkLayerPlusTime hw t addr => bytesU16 hw ++ bytesU32 t ++ addr
  | .enterpriseNumber en enc ident => bytesU16 en ++ bytesU16 enc ++ ident
  | .linkLayer hw addr => bytesU16 hw ++ addr
  | .uniqueIdentifier uuid => staticBytesEnc 128 uuid

/-- `write_duid`: a 16-bit duid-type followed by the struct body. -/
def writeDuid (d : DUID) : List Nat :=
  bytesU16 d.duid ++ duidBodyEnc d

/-- Body decoder dispatched from the registry (`DUIDS`). -/
def duidBodyDec (t : Nat) (l : List Nat) : Except String DUID :=
  if t = 1 then
    match readU16 l with
    | .error e => .error e
    | .ok (hw, r1) =>
        if isHwType hw then
          match readU32 r1 with
          | .error e => .error e
          | .ok (time, r2) => .ok (.linkLayerPlusTime hw time r2)
        else .error "invalid hw type"
  else if t = 2 then
    match readU16 l with
    | .error e => .error e
    | .ok (en, r1) =>
        match readU16 r1 with
        | .error e => .error e
        | .ok (enc, r2) => .ok (.enterpriseNumber en enc r2)
  else if t = 3 then
    match readU16 l with
    | .error e => .error e
    | .ok (hw, r1) =>
        if isHwType hw then .ok (.linkLayer hw r1)
        else .error "invalid hw type"
  else if t = 4 then
    .ok (.uniqueIdentifier (dropTrailingZeros (l.take 128)))
  else .error "Unsupported DUID"

/-- `read_duid`: reads the duid-type as a *single byte* (`U8`) — although
`write_duid` emits it as a u16 — then dispatches on it; a value that is not
a `DuidType` member raises. -/
def readDuid (raw : List Nat) : Except String DUID :=
  match raw with
  | [] => .error "u8: out of data"
  | b :: rest =>
      if isDuidType b then duidBodyDec b rest
      else .error "Unsupported DUID"

/-! ## Codec helper lemmas -/

theorem readU16_bytes (n : Nat) (rest : List Nat) (h : n < 2 ^ 16) :
    readU16 (bytesU16 n ++ rest) = .ok (n, rest) := by
  simp only [bytesU16, List.cons_append, List.nil_append, readU16,
    Except.ok.injEq, Prod.mk.injEq, and_true]
  omega

theorem readU32_bytes (n : Nat) (rest : List Nat) (h : n < 2 ^ 32) :
    readU32 (bytesU32 n ++ rest) = .ok (n, rest) := by
  simp only [bytesU32, List.cons_append, List.nil_append, readU32,
    Except.ok.injEq, Prod.mk.injEq, and_true]
  omega

theorem readI32_bytes (i : Int) (rest : List Nat)
    (h1 : -(2 ^ 31) ≤ i) (h2 : i < 2 ^ 31) :
    readI32 (bytesI32 i ++ rest) = .ok (i, rest) := by
  have hv : (i % 2 ^ 32).toNat < 2 ^ 32 := by omega
  rw [readI32, bytesI32, readU32_bytes _ _ hv]
  simp only [Except.ok.injEq, Prod.mk.injEq, and_true]
  split <;> omega

theorem staticBytesEnc_length (n : Nat) (b : List Nat) :
    (staticBytesEnc n b).length = n := by
  simp [staticBytesEnc]
  omega

theorem dropWhile_zeros_append (k : Nat) (x : List Nat) :
    (List.replicate k 0 ++ x).dropWhile (fun b => b == 0) =
      x.dropWhile (fun b => b == 0) := by
  induction k with
  | zero => rfl
  | succ k ih => simp [List.replicate_succ, ih]

theorem dropTrailingZeros_append_zeros (l : List Nat) (k : Nat) :
    dropTrailingZeros (l ++ List.replicate k 0) = dropTrailingZeros l := by
  simp only [dropTrailingZeros, List.reverse_append, List.reverse_replicate]
  rw [dropWhile_zeros_append]

theorem readStatic_static (n : Nat) (b rest : List Nat)
    (hlen : b.length ≤ n) (hdrop : dropTrailingZeros b = b) :
    readStatic n (staticBytesEnc n b ++ rest) = (b, rest) := by
  unfold readStatic
  rw [List.take_left' (staticBytesEnc_length n b),
      List.drop_left' (staticBytesEnc_length n b)]
  unfold staticBytesEnc
  rw [List.take_of_length_le hlen, dropTrailingZeros_append_zeros, hdrop]

theorem isOptionCode_lt256 (p : Nat) (h : isOptionCode p = true) : p < 256 := by
  have hmem : p ∈ optionCodeValues := by
    simpa [isOptionCode] using h
  have hall : ∀ x ∈ optionCodeValues, x < 256 := by
    set_option maxRecDepth 8192 in decide
  exact hall p hmem

theorem readIPv4s_pack (ips : List Nat) (h : ∀ ip ∈ ips, ip < 2 ^ 32) :
    readIPv4s (packIPv4List ips) = .ok ips := by
  induction ips with
  | nil => rfl
  | cons ip rest ih =>
      have hip : ip < 2 ^ 32 := h ip (by simp)
      have ihh := ih (fun x hx => h x (by simp [hx]))
      simp [packIPv4List, bytesU32, readIPv4s, ihh]
      omega

theorem readArches_pack (vs : List Nat) (h : ∀ v ∈ vs, isArch v = true) :
    readArches (packU16List vs) = .ok vs := by
  induction vs with
  | nil => rfl
  | cons v rest ih =>
      have hv : isArch v = true := h v (by simp)
      have hlt : v < 2 ^ 16 := by
        simp [isArch] at hv
        omega
      have harith : v / 256 % 256 * 256 + v % 256 = v := by omega
      have ihh := ih (fun x hx => h x (by simp [hx]))
      simp [packU16List, bytesU16, readArches, harith, hv, ihh]

theorem readParamCodes_pack (ps : List Nat)
    (h : ∀ p ∈ ps, isOptionCode p = true) :
    readParamCodes (ps.map (fun p => p % 256)) = .ok ps := by
  induction ps with
  | nil => rfl
  | cons p rest ih =>
      have hp : isOptionCode p = true := h p (by simp)
      have hmod : p % 256 = p := Nat.mod_eq_of_lt (isOptionCode_lt256 p hp)
      have ihh := ih (fun x hx => h x (by simp [hx]))
      simp only [List.map_cons, readParamCodes, hmod, hp, if_true, ihh]

/-! ### Domain codec lemmas -/

theorem splitDotAux_ne_nil (l acc : List Nat) : splitDotAux l acc ≠ [] := by
  induction l generalizing acc with
  | nil => simp [splitDotAux]
  | cons b rest ih =>
      by_cases hb : b = 46
      · subst hb
        simp [splitDotAux]
      · simp [splitDotAux, hb]
        exact ih _

theorem joinDot_cons_of_ne_nil (l : List Nat) (rest : List (List Nat))
    (h : rest ≠ []) : joinDot (l :: rest) = l ++ 46 :: joinDot rest := by
  match rest, h with
  | r :: rs, _ => rfl

theorem joinDot_splitDotAux (l acc : List Nat) :
    joinDot (splitDotAux l acc) = acc.reverse ++ l := by
  induction l generalizing acc with
  | nil => simp [splitDotAux, joinDot]
  | cons b rest ih =>
      by_cases hb : b = 46
      · subst hb
        rw [show splitDotAux (46 :: rest) acc = acc.reverse :: splitDotAux rest []
              from rfl,
            joinDot_cons_of_ne_nil _ _ (splitDotAux_ne_nil _ _), ih]
        simp
      · rw [show splitDotAux (b :: rest) acc = splitDotAux rest (b :: acc) from by
              simp [splitDotAux, hb]]
        rw [ih]
        simp

theorem joinDot_splitDot (l : List Nat) : joinDot (splitDot l) = l := by
  simpa using joinDot_splitDotAux l []

theorem readLabels_pack (ls : List (List Nat)) (rest : List Nat)
    (h : ∀ l ∈ ls, l ≠ [] ∧ l.length ≤ 255) :
    readLabels (packLabels ls ++ rest) = .ok (ls, rest) := by
  induction ls with
  | nil => simp [packLabels, readLabels]
  | cons l ls' ih =>
      obtain ⟨hne, hlen⟩ := h l (by simp)
      have ihh := ih (fun x hx => h x (by simp [hx]))
      match l, hne, hlen with
      | x :: xs, _, hlen =>
        have hxslen : xs.length + 1 ≤ 255 := by simpa using hlen
        have hmod : (x :: xs).length % 256 = xs.length + 1 := by
          simp only [List.length_cons]
          omega
        have hshape : packLabels ((x :: xs) :: ls') ++ rest
            = (xs.length + 1) :: ((x :: xs) ++ (packLabels ls' ++ rest)) := by
          simp only [packLabels, hmod, List.cons_append, List.append_assoc]
        have hnlt : ¬ (((x :: xs) ++ (packLabels ls' ++ rest)).length
            < xs.length + 1) := by
          simp
        have hdrop : ((x :: xs) ++ (packLabels ls' ++ rest)).drop
            (xs.length + 1) = packLabels ls' ++ rest :=
          List.drop_left' (by simp)
        have htake : ((x :: xs) ++ (packLabels ls' ++ rest)).take
            (xs.length + 1) = x :: xs :=
          List.take_left' (by simp)
        rw [hshape]
        simp only [readLabels, hnlt, if_false, hdrop, htake, ihh]

theorem packLabels_shape (ls : List (List Nat)) :
    ∃ b t, packLabels ls = b :: t := by
  cases ls with
  | nil => exact ⟨0, [], rfl⟩
  | cons a r => exact ⟨a.length % 256, a ++ packLabels r, rfl⟩

theorem readDomains_pack (ds : List (List Nat))
    (h : ∀ d ∈ ds, ∀ l ∈ splitDot d, l ≠ [] ∧ l.length ≤ 255) :
    readDomains (encodeDomainList ds) = .ok ds := by
  induction ds with
  | nil => simp [encodeDomainList, readDomains]
  | cons d ds' ih =>
      have hpl := readLabels_pack (splitDot d) (encodeDomainList ds')
        (h d (by simp))
      have ihh := ih (fun x hx => h x (by simp [hx]))
      obtain ⟨b, t, hbt⟩ := packLabels_shape (splitDot d)
      have hshape : encodeDomainList (d :: ds')
          = b :: (t ++ encodeDomainList ds') := by
        simp [encodeDomainList, encodeDomain, hbt]
      have hrl : readLabels (b :: (t ++ encodeDomainList ds'))
          = .ok (splitDot d, encodeDomainList ds') := by
        rw [← List.cons_append, ← hbt]
        exact hpl
      rw [hshape, readDomains]
      split
      · rename_i e he
        rw [hrl] at he
        exact absurd he (by simp)
      · rename_i ls r hok
        rw [hrl] at hok
        simp only [Except.ok.injEq, Prod.mk.injEq] at hok
        obtain ⟨h1, h2⟩ := hok
        subst h1
        subst h2
        simp only [ihh, joinDot_splitDot]

/-! ## Well-formed options

`wfOpt` captures the options on which the codec can round-trip: payloads
fit the 8-bit length field, enum payloads are members of their enums, and
the option's registry entry decodes back to the same class.  The three
constructors the code can never round-trip are excluded: `DHCPMessage` and
`TFTPServerIP` (shadowed in `OPTION_MAP` by `MaxMessageSize` and
`PXEPathPrefix` at codes 56 and 128) and `End` (the decode loop stops at
its code byte). -/

/-- Codes with a registered class in `OPTION_MAP`. -/
def mappedCode (c : Nat) : Bool :=
  [1, 2, 3, 4, 5, 6, 7, 8, 9, 12, 15, 28, 43, 50, 51, 53, 54, 55, 56,
   58, 59, 60, 66, 67, 93, 119, 128, 151, 255].contains c

/-- A well-formed IPv4-list payload (≤ 63 addresses fit 255 bytes). -/
def ipListWf (ips : List Nat) : Bool :=
  decide (ips.length ≤ 63) && ips.all (fun ip => decide (ip < 2 ^ 32))

/-- A domain name the label codec can round-trip: labels non-empty and at
most 255 bytes. -/
def domainWf (d : List Nat) : Bool :=
  (splitDot d).all (fun l => !l.isEmpty && decide (l.length ≤ 255))

def wfOpt : Opt → Bool
  | .subnetMask m => decide (m < 2 ^ 32)
  | .timezoneOffset i => decide (-(2 ^ 31) ≤ i) && decide (i < 2 ^ 31)
  | .router ips => ipListWf ips
  | .timeServer ips => ipListWf ips
  | .inetNameServer ips => ipListWf ips
  | .domainNameServer ips => ipListWf ips
  | .logServer ips => ipListWf ips
  | .quoteServer ips => ipListWf ips
  | .lprServer ips => ipListWf ips
  | .hostname h => decide (h.length ≤ 255)
  | .domainName d => decide (d.length ≤ 255)
  | .broadcastAddr a => decide (a < 2 ^ 32)
  | .vendorInfo i => decide (i.length ≤ 255)
  | .requestedIPAddr ip => decide (ip < 2 ^ 32)
  | .ipLeaseTime s => decide (s < 2 ^ 32)
  | .dhcpMessageType t => isMsgType t
  | .serverIdentifier ip => decide (ip < 2 ^ 32)
  | .paramRequestList ps => decide (ps.length ≤ 255) && ps.all isOptionCode
  | .dhcpMessage _ => false
  | .maxMessageSize s => decide (s < 2 ^ 16)
  | .renewalTime s => decide (s < 2 ^ 32)
  | .rebindTime s => decide (s < 2 ^ 32)
  | .vendorClassIdentifier v => decide (v.length ≤ 255)
  | .tftpServerName n => decide (n.length ≤ 255)
  | .dhcpStatusCode v m => isStatusCode v && decide (m.length ≤ 254)
  | .bootfileName n => decide (n.length ≤ 255)
  | .clientSystemArch as => decide (as.length ≤ 127) && as.all isArch
  | .dnsDomainSearchList ds =>
      decide ((encodeDomainList ds).length ≤ 255) && ds.all domainWf
  | .tftpServerIP _ => false
  | .pxePathPfx p => decide (p.length ≤ 255)
  | .endOpt => false
  | .unknown code data =>
      isOptionCode code && !mappedCode code && decide (code ≠ 0)
        && decide (data.length ≤ 255)

theorem packIPv4List_length (ips : List Nat) :
    (packIPv4List ips).length = 4 * ips.length := by
  induction ips with
  | nil => rfl
  | cons ip rest ih => simp [packIPv4List, bytesU32, ih]; omega

theorem packU16List_length (vs : List Nat) :
    (packU16List vs).length = 2 * vs.length := by
  induction vs with
  | nil => rfl
  | cons v rest ih => simp [packU16List, bytesU16, ih]; omega

/-- A well-formed option's payload fits the 8-bit length field. -/
theorem wfOpt_payload_le (o : Opt) (h : wfOpt o = true) :
    (packPayload o).length ≤ 255 := by
  cases o <;>
    simp_all [wfOpt, packPayload, ipListWf, bytesU32, bytesU16, bytesI32,
      packIPv4List_length, packU16List_length] <;> omega

theorem ipListWf_bounds (ips : List Nat) (h : ipListWf ips = true) :
    ∀ ip ∈ ips, ip < 2 ^ 32 := by
  simp only [ipListWf, Bool.and_eq_true, List.all_eq_true, decide_eq_true_eq]
    at h
  exact h.2

theorem domainWf_labels (d : List Nat) (h : domainWf d = true) :
    ∀ l ∈ splitDot d, l ≠ [] ∧ l.length ≤ 255 := by
  simp only [domainWf, List.all_eq_true, Bool.and_eq_true,
    Bool.not_eq_true', decide_eq_true_eq] at h
  intro l hl
  obtain ⟨h1, h2⟩ := h l hl
  exact ⟨by simpa [List.isEmpty_iff] using h1, h2⟩

/-- A well-formed option's numeric code is a defined `OptionCode`, and is
neither `Pad` (0) nor `End` (255), so the decode loop does not stop at it. -/
theorem wfOpt_code_ne (o : Opt) (h : wfOpt o = true) :
    isOptionCode o.opcode = true ∧ o.opcode ≠ 0 ∧ o.opcode ≠ 255 := by
  cases o
  case unknown code data =>
    simp only [wfOpt, Bool.and_eq_true, Bool.not_eq_true',
      decide_eq_true_eq] at h
    obtain ⟨⟨⟨hcode, hmap⟩, hne0⟩, _⟩ := h
    refine ⟨by simpa [Opt.opcode] using hcode,
      by simpa [Opt.opcode] using hne0, ?_⟩
    intro hc
    simp only [Opt.opcode] at hc
    rw [hc] at hmap
    exact absurd hmap (by decide)
  case endOpt => simp [wfOpt] at h
  case dhcpMessage m => simp [wfOpt] at h
  case tftpServerIP ip => simp [wfOpt] at h
  all_goals refine ⟨?_, ?_, ?_⟩ <;> simp only [Opt.opcode] <;> decide

/-- Decoding a well-formed option's packed payload at its own code yields
the option back (the registry is inverse to `pack` on well-formed
options). -/
theorem decodePayload_pack (o : Opt) (h : wfOpt o = true) :
    decodePayload o.opcode (packPayload o) = .ok o := by
  cases o
  case subnetMask m =>
    have hm : m < 2 ^ 32 := by simpa [wfOpt] using h
    have hr := readU32_bytes m [] hm
    rw [List.append_nil] at hr
    simp [decodePayload, Opt.opcode, packPayload, hr, Except.map]
  case timezoneOffset i =>
    simp only [wfOpt, Bool.and_eq_true, decide_eq_true_eq] at h
    have hr := readI32_bytes i [] h.1 h.2
    rw [List.append_nil] at hr
    simp [decodePayload, Opt.opcode, packPayload, hr, Except.map]
  case router ips =>
    have hr := readIPv4s_pack ips (ipListWf_bounds ips (by simpa [wfOpt] using h))
    simp [decodePayload, Opt.opcode, packPayload, hr, Except.map]
  case timeServer ips =>
    have hr := readIPv4s_pack ips (ipListWf_bounds ips (by simpa [wfOpt] using h))
    simp [decodePayload, Opt.opcode, packPayload, hr, Except.map]
  case inetNameServer ips =>
    have hr := readIPv4s_pack ips (ipListWf_bounds ips (by simpa [wfOpt] using h))
    simp [decodePayload, Opt.opcode, packPayload, hr, Except.map]
  case domainNameServer ips =>
    have hr := readIPv4s_pack ips (ipListWf_bounds ips (by simpa [wfOpt] using h))
    simp [decodePayload, Opt.opcode, packPayload, hr, Except.map]
  case logServer ips =>
    have hr := readIPv4s_pack ips (ipListWf_bounds ips (by simpa [wfOpt] using h))
    simp [decodePayload, Opt.opcode, packPayload, hr, Except.map]
  case quoteServer ips =>
    have hr := readIPv4s_pack ips (ipListWf_bounds ips (by simpa [wfOpt] using h))
    simp [decodePayload, Opt.opcode, packPayload, hr, Except.map]
  case lprServer ips =>
    have hr := readIPv4s_pack ips (ipListWf_bounds ips (by simpa [wfOpt] using h))
    simp [decodePayload, Opt.opcode, packPayload, hr, Except.map]
  case hostname hh => simp [decodePayload, Opt.opcode, packPayload]
  case domainName d => simp [decodePayload, Opt.opcode, packPayload]
  case broadcastAddr a =>
    have ha : a < 2 ^ 32 := by simpa [wfOpt] using h
    have hr := readU32_bytes a [] ha
    rw [List.append_nil] at hr
    simp [decodePayload, Opt.opcode, packPayload, hr, Except.map]
  case vendorInfo i => simp [decodePayload, Opt.opcode, packPayload]
  case requestedIPAddr ip =>
    have hip : ip < 2 ^ 32 := by simpa [wfOpt] using h
    have hr := readU32_bytes ip [] hip
    rw [List.append_nil] at hr
    simp [decodePayload, Opt.opcode, packPayload, hr, Except.map]
  case ipLeaseTime s =>
    have hs : s < 2 ^ 32 := by simpa [wfOpt] using h
    have hr := readU32_bytes s [] hs
    rw [List.append_nil] at hr
    simp [decodePayload, Opt.opcode, packPayload, hr, Except.map]
  case dhcpMessageType t =>
    have ht : isMsgType t = true := by simpa [wfOpt] using h
    have hmod : t % 256 = t := by
      simp only [isMsgType, Bool.and_eq_true, decide_eq_true_eq] at ht
      omega
    simp [decodePayload, Opt.opcode, packPayload, readU8, hmod, ht]
  case serverIdentifier ip =>
    have hip : ip < 2 ^ 32 := by simpa [wfOpt] using h
    have hr := readU32_bytes ip [] hip
    rw [List.append_nil] at hr
    simp [decodePayload, Opt.opcode, packPayload, hr, Except.map]
  case paramRequestList ps =>
    simp only [wfOpt, Bool.and_eq_true, List.all_eq_true,
      decide_eq_true_eq] at h
    have hr := readParamCodes_pack ps h.2
    simp [decodePayload, Opt.opcode, packPayload, hr, Except.map]
  case dhcpMessage m => simp [wfOpt] at h
  case maxMessageSize s =>
    have hs : s < 2 ^ 16 := by simpa [wfOpt] using h
    have hr := readU16_bytes s [] hs
    rw [List.append_nil] at hr
    simp [decodePayload, Opt.opcode, packPayload, hr, Except.map]
  case renewalTime s =>
    have hs : s < 2 ^ 32 := by simpa [wfOpt] using h
    have hr := readU32_bytes s [] hs
    rw [List.append_nil] at hr
    simp [decodePayload, Opt.opcode, packPayload, hr, Except.map]
  case rebindTime s =>
    have hs : s < 2 ^ 32 := by simpa [wfOpt] using h
    have hr := readU32_bytes s [] hs
    rw [List.append_nil] at hr
    simp [decodePayload, Opt.opcode, packPayload, hr, Except.map]
  case vendorClassIdentifier v => simp [decodePayload, Opt.opcode, packPayload]
  case tftpServerName n => simp [decodePayload, Opt.opcode, packPayload]
  case dhcpStatusCode v m =>
    simp only [wfOpt, Bool.and_eq_true, decide_eq_true_eq] at h
    have hv : isStatusCode v = true := h.1
    have hmod : v % 256 = v := by
      simp only [isStatusCode, decide_eq_true_eq] at hv
      omega
    have hv' : isStatusCode v = true := h.1
    simp [decodePayload, Opt.opcode, packPayload, readU8, hmod, hv']
  case bootfileName n => simp [decodePayload, Opt.opcode, packPayload]
  case clientSystemArch as =>
    simp only [wfOpt, Bool.and_eq_true, List.all_eq_true,
      decide_eq_true_eq] at h
    have hr := readArches_pack as h.2
    simp [decodePayload, Opt.opcode, packPayload, hr, Except.map]
  case dnsDomainSearchList ds =>
    simp only [wfOpt, Bool.and_eq_true, List.all_eq_true,
      decide_eq_true_eq] at h
    have hr := readDomains_pack ds (fun d hd => domainWf_labels d (h.2 d hd))
    simp [decodePayload, Opt.opcode, packPayload, hr, Except.map]
  case tftpServerIP ip => simp [wfOpt] at h
  case pxePathPfx p => simp [decodePayload, Opt.opcode, packPayload]
  case endOpt => simp [wfOpt] at h
  case unknown code data =>
    have hmap : mappedCode code = false := by
      simp only [wfOpt, Bool.and_eq_true, Bool.not_eq_true'] at h
      exact h.1.1.2
    have hnm : ¬ (code ∈ [1, 2, 3, 4, 5, 6, 7, 8, 9, 12, 15, 28, 43, 50,
        51, 53, 54, 55, 56, 58, 59, 60, 66, 67, 93, 119, 128, 151, 255]) := by
      simpa [mappedCode] using hmap
    simp only [List.mem_cons, List.not_mem_nil, or_false, not_or] at hnm
    obtain ⟨n1, n2, n3, n4, n5, n6, n7, n8, n9, n12, n15, n28, n43, n50,
      n51, n53, n54, n55, n56, n58, n59, n60, n66, n67, n93, n119, n128,
      n151, n255⟩ := hnm
    show decodePayload code data = .ok (.unknown code data)
    rw [decodePayload, if_neg n1, if_neg n2, if_neg n3, if_neg n4,
      if_neg n5, if_neg n6, if_neg n7, if_neg n8, if_neg n9, if_neg n12,
      if_neg n15, if_neg n28, if_neg n43, if_neg n50, if_neg n51,
      if_neg n53, if_neg n54, if_neg n55, if_neg n56, if_neg n58,
      if_neg n59, if_neg n60, if_neg n66, if_neg n67, if_neg n93,
      if_neg n119, if_neg n128, if_neg n151, if_neg n255]

/-- Unpacking the serialized form of a well-formed option placed at the
cursor yields the option and leaves exactly the following bytes. -/
theorem unpackOption_pack (o : Opt) (x : List Nat) (h : wfOpt o = true) :
    unpackOption (packOption o ++ x)
      = .ok (o, x) := by
  obtain ⟨hcode, _, _⟩ := wfOpt_code_ne o h
  have hpay := wfOpt_payload_le o h
  have hhb : hintedBytesEnc (packPayload o)
      = (packPayload o).length :: packPayload o := by
    unfold hintedBytesEnc
    rw [if_neg (by omega)]
  have hshape : packOption o ++ x
      = o.opcode :: (packPayload o).length :: (packPayload o ++ x) := by
    simp [packOption, hhb]
  have htake : (packPayload o ++ x).take (packPayload o).length
      = packPayload o := List.take_left' rfl
  have hdrop : (packPayload o ++ x).drop (packPayload o).length = x :=
    List.drop_left' rfl
  rw [hshape, unpackOption, if_pos hcode, htake, hdrop,
    decodePayload_pack o h]

/-- The option-reading loop consumes a sequence of well-formed packed
options and stops at a following Pad (`0`) or End (`255`) byte, returning
exactly the packed options. -/
theorem parse_packed_stop (os : List Opt) (b : Nat) (t : List Nat)
    (hos : os.all wfOpt = true) (hb : b = 0 ∨ b = 255) :
    parseOptions (packOptions os ++ b :: t) = .ok os := by
  induction os with
  | nil =>
      simp only [packOptions, List.nil_append]
      rw [parseOptions, if_pos hb]
  | cons o os' ih =>
      simp only [List.all_cons, Bool.and_eq_true] at hos
      obtain ⟨hwf, hos'⟩ := hos
      obtain ⟨hcode, hne0, hne255⟩ := wfOpt_code_ne o hwf
      have hunp := unpackOption_pack o (packOptions os' ++ b :: t) hwf
      have hshape : packOptions (o :: os') ++ b :: t
          = packOption o ++ (packOptions os' ++ b :: t) := by
        simp [packOptions]
      obtain ⟨c, t', hct⟩ : ∃ c t', packOption o ++ (packOptions os' ++ b :: t)
          = c :: t' := by
        cases hpo : packOption o with
        | nil => exact absurd hpo (by simp [packOption])
        | cons c t'' => exact ⟨c, t'' ++ (packOptions os' ++ b :: t), by simp [hpo]⟩
      have hceq : c = o.opcode := by
        have : packOption o = o.opcode :: hintedBytesEnc (packPayload o) := rfl
        rw [this] at hct
        exact (List.cons.injEq _ _ _ _ ▸ hct).1.symm
      have hunp' : unpackOption (c :: t')
          = .ok (o, packOptions os' ++ b :: t) := by
        rw [← hct]
        exact hunp
      rw [hshape, hct, parseOptions]
      rw [if_neg (by rw [hceq]; simp [hne0, hne255])]
      split
      · rename_i e he
        rw [hunp'] at he
        exact absurd he (by simp)
      · rename_i o2 r2 hok
        rw [hunp'] at hok
        simp only [Except.ok.injEq, Prod.mk.injEq] at hok
        obtain ⟨h1, h2⟩ := hok
        subst h1
        subst h2
        rw [ih hos']

/-- Well-formed options never carry the `End` code, so `Message.pack`
appends the terminating End byte. -/
theorem containsEnd_false (os : List Opt) (h : os.all wfOpt = true) :
    containsEnd os = false := by
  simp only [containsEnd, List.any_eq_false, beq_iff_eq]
  intro o ho
  have hwf : wfOpt o = true := by
    simp only [List.all_eq_true] at h
    exact h o ho
  exact (wfOpt_code_ne o hwf).2.2

theorem readU16_bytes2 (n : Nat) (rest : List Nat) :
    readU16 (bytesU16 n ++ rest) = .ok (n % 2 ^ 16, rest) := by
  simp only [bytesU16, List.cons_append, List.nil_append, readU16,
    Except.ok.injEq, Prod.mk.injEq, and_true]
  omega

theorem readU32_bytes2 (n : Nat) (rest : List Nat) :
    readU32 (bytesU32 n ++ rest) = .ok (n % 2 ^ 32, rest) := by
  simp only [bytesU32, List.cons_append, List.nil_append, readU32,
    Except.ok.injEq, Prod.mk.injEq, and_true]
  omega

theorem readStatic_static2 (n : Nat) (b : List Nat) (hlen : b.length ≤ n)
    (hdrop : dropTrailingZeros b = b) (rest : List Nat) :
    readStatic n (staticBytesEnc n b ++ rest) = (b, rest) :=
  readStatic_static n b rest hlen hdrop

theorem take4_cookie (y : List Nat) : (magicCookie ++ y).take 4 = magicCookie :=
  List.take_left' rfl

theorem drop4_cookie (y : List Nat) : (magicCookie ++ y).drop 4 = y :=
  List.drop_left' rfl

/-! ## Well-formed messages

A message the codec can round-trip: numeric fields fit their wire widths,
enum fields are members, byte fields fit their static slots without
trailing zeros (the decoder strips those), every option is well-formed, and
the option list is in the canonical state its constructor builds. -/

def wfMessage (m : Message) : Prop :=
  isOpCode m.op = true ∧ isHwType m.hw_type = true ∧ m.hops < 256 ∧
  m.id < 2 ^ 32 ∧ m.seconds < 2 ^ 16 ∧ m.flags < 2 ^ 16 ∧
  m.client_addr < 2 ^ 32 ∧ m.your_addr < 2 ^ 32 ∧ m.server_addr < 2 ^ 32 ∧
  m.gateway_addr < 2 ^ 32 ∧
  m.client_hw.length ≤ 16 ∧ dropTrailingZeros m.client_hw = m.client_hw ∧
  m.server_name.length ≤ 64 ∧ dropTrailingZeros m.server_name = m.server_name ∧
  m.boot_file.length ≤ 128 ∧ dropTrailingZeros m.boot_file = m.boot_file ∧
  m.options.data.all wfOpt = true ∧ m.options = olInit m.options.data

instance (m : Message) : Decidable (wfMessage m) := by
  unfold wfMessage
  infer_instance

/-- What `Message.unpack` does to a packed fixed header followed by
arbitrary option bytes: every header field is decoded, but `server_addr`
is dropped on the constructor call, and the parsed options are wrapped in
a fresh `OptionList`. -/
theorem unpackMessage_header (m : Message) (optb : List Nat)
    (hop : isOpCode m.op = true) (hhw : isHwType m.hw_type = true)
    (hhops : m.hops < 256) (hid : m.id < 2 ^ 32)
    (hsecs : m.seconds < 2 ^ 16) (hflags : m.flags < 2 ^ 16)
    (hca : m.client_addr < 2 ^ 32) (hya : m.your_addr < 2 ^ 32)
    (hsa : m.server_addr < 2 ^ 32) (hga : m.gateway_addr < 2 ^ 32)
    (hhwlen : m.client_hw.length ≤ 16)
    (hhwdrop : dropTrailingZeros m.client_hw = m.client_hw)
    (hsnlen : m.server_name.length ≤ 64)
    (hsndrop : dropTrailingZeros m.server_name = m.server_name)
    (hbflen : m.boot_file.length ≤ 128)
    (hbfdrop : dropTrailingZeros m.boot_file = m.boot_file) :
    unpackMessage (packHeader m ++ optb)
      = match parseOptions optb with
        | .error e => .error e
        | .ok os =>
            .ok { op := m.op, id := m.id, client_hw := m.client_hw,
                  options := olInit os, hw_type := m.hw_type,
                  hops := m.hops, seconds := m.seconds, flags := m.flags,
                  client_addr := m.client_addr, your_addr := m.your_addr,
                  gateway_addr := m.gateway_addr,
                  server_name := m.server_name,
                  boot_file := m.boot_file } := by
  have hople : m.op < 256 := by
    simp only [isOpCode, Bool.or_eq_true, beq_iff_eq] at hop
    omega
  have hhwle : m.hw_type < 256 := by
    simp only [isHwType, Bool.and_eq_true, decide_eq_true_eq] at hhw
    omega
  have hop' : m.op % 256 = m.op := Nat.mod_eq_of_lt hople
  have hhw' : m.hw_type % 256 = m.hw_type := Nat.mod_eq_of_lt hhwle
  have hhops' : m.hops % 256 = m.hops := Nat.mod_eq_of_lt hhops
  have hlen' : m.client_hw.length % 256 = m.client_hw.length :=
    Nat.mod_eq_of_lt (by omega)
  simp only [packHeader, List.append_assoc, List.cons_append,
    List.nil_append]
  simp only [unpackMessage, readU8, readU32_bytes2, readU16_bytes2,
    readStatic_static2 16 m.client_hw hhwlen hhwdrop,
    readStatic_static2 64 m.server_name hsnlen hsndrop,
    readStatic_static2 128 m.boot_file hbflen hbfdrop,
    take4_cookie, drop4_cookie,
    hop', hhw', hhops', hlen',
    Nat.mod_eq_of_lt hid, Nat.mod_eq_of_lt hsecs, Nat.mod_eq_of_lt hflags,
    Nat.mod_eq_of_lt hca, Nat.mod_eq_of_lt hya, Nat.mod_eq_of_lt hsa,
    Nat.mod_eq_of_lt hga, hop, hhw, if_true, eq_self_iff_true]

/-- Unpack is a left inverse of pack on well-formed messages *except* for
`server_addr`, which `Message.unpack` never restores (it omits the decoded
`siaddr` when rebuilding the message, so the field keeps its zero
default). -/
theorem unpack_pack (m : Message) (h : wfMessage m) :
    unpackMessage (packMessage m) = .ok { m with server_addr := 0 } := by
  obtain ⟨hop, hhw, hhops, hid, hsecs, hflags, hca, hya, hsa, hga,
    hhwlen, hhwdrop, hsnlen, hsndrop, hbflen, hbfdrop, hoptwf, holinit⟩ := h
  have hend := containsEnd_false _ hoptwf
  have hparse := parse_packed_stop m.options.data 255 [] hoptwf (Or.inr rfl)
  have hpm : packMessage m
      = packHeader m ++ (packOptions m.options.data ++ [255]) := by
    simp [packMessage, hend]
  rw [hpm, unpackMessage_header m _ hop hhw hhops hid hsecs hflags hca hya
    hsa hga hhwlen hhwdrop hsnlen hsndrop hbflen hbfdrop, hparse]
  simp only [← holinit]

/-! ## Claim theorems -/

/-- A concrete well-formed message carrying a non-zero `server_addr`
(192.168.0.1) and a typical option list. -/
def w1msg : Message :=
  { op := 1, id := 15645, client_hw := [0, 11, 130, 1, 252, 66],
    options := olInit [Opt.dhcpMessageType 1, Opt.requestedIPAddr 0,
      Opt.paramRequestList [1, 3, 6, 42]],
    hw_type := 1, seconds := 5, flags := 0,
    server_addr := 3232235521 }

/-- C1 (amended): for every well-formed DHCPv4 message, decoding the bytes
produced by encoding restores every fixed-header field and the option list
in order — *except* `server_addr`, which decodes to 0.0.0.0 because
`Message.unpack` omits it when rebuilding the message. -/
theorem claim1_roundtrip_no_server_addr (m : Message) (h : wfMessage m) :
    unpackMessage (packMessage m) = .ok ({ m with server_addr := 0 }) :=
  unpack_pack m h

/-- C1 witness: the amended round-trip evaluated at a concrete message. -/
theorem claim1_roundtrip_witness :
    wfMessage w1msg ∧
      unpackMessage (packMessage w1msg) = .ok ({ w1msg with server_addr := 0 }) :=
  ⟨by decide, claim1_roundtrip_no_server_addr w1msg (by decide)⟩

/-- C1 counterexample: the claim as stated is false — a message whose
`server_addr` is 192.168.0.1 does not survive `unpack ∘ pack`; the decoded
message carries `server_addr = 0.0.0.0`. -/
theorem claim1_counterexample :
    unpackMessage (packMessage w1msg) ≠ .ok w1msg := by
  have h := unpack_pack w1msg (by decide)
  rw [h]
  intro hc
  have h2 := congrArg Message.server_addr (Except.ok.inj hc)
  simp [w1msg] at h2

/-- C2 (amended): `Message.pack` emits the 240-byte fixed header (with
magic cookie), the options in list order, and a single End byte when no
End option is present — and nothing else: no padding is applied, so the
encoded length is not bounded below by 300. -/
theorem claim2_no_padding (m : Message) :
    (packMessage m).length
      = 240 + (packOptions m.options.data).length
        + (if containsEnd m.options.data then 0 else 1) := by
  by_cases hce : containsEnd m.options.data
  · simp [packMessage, packHeader, bytesU32, bytesU16, staticBytesEnc_length,
      magicCookie, hce]
    omega
  · simp [packMessage, packHeader, bytesU32, bytesU16, staticBytesEnc_length,
      magicCookie, hce]
    omega

/-- A minimal message: empty hardware address and no options. -/
def minMsg : Message :=
  { op := 1, id := 0, client_hw := [], options := olEmpty }

/-- C2 counterexample: the encoded form of a minimal message is 241 bytes,
below the claimed 300-byte minimum — `pack` does not pad. -/
theorem claim2_counterexample :
    (packMessage minMsg).length = 241 ∧ ¬ (300 ≤ (packMessage minMsg).length) := by
  constructor
  · decide
  · decide

/-- C7 (amended): the option-reading loop of `Message.unpack` treats a Pad
(`0x00`) byte at an option boundary exactly like `End`: it *terminates* the
option stream, returning only the options before the Pad and ignoring
everything after it. -/
theorem claim7_pad_terminates (os : List Opt) (junk : List Nat)
    (h : os.all wfOpt = true) :
    parseOptions (packOptions os ++ 0 :: junk) = .ok os :=
  parse_packed_stop os 0 junk h (Or.inl rfl)

/-- C7 witness: the amended statement at a concrete stream — a message-type
option, a Pad byte, then a serialized lease-time option and End. -/
theorem claim7_pad_terminates_witness :
    [Opt.dhcpMessageType 1].all wfOpt = true ∧
      parseOptions (packOptions [Opt.dhcpMessageType 1]
        ++ 0 :: (packOptions [Opt.ipLeaseTime 60] ++ [255]))
      = .ok [Opt.dhcpMessageType 1] :=
  ⟨by decide, claim7_pad_terminates [Opt.dhcpMessageType 1]
    (packOptions [Opt.ipLeaseTime 60] ++ [255]) (by decide)⟩

/-- The option bytes of the C7 counterexample: DHCPMessageType(Discover),
a Pad byte, IPLeaseTime(60), End. -/
def c7opts : List Nat :=
  packOptions [Opt.dhcpMessageType 1]
    ++ 0 :: (packOptions [Opt.ipLeaseTime 60] ++ [255])

/-- The full C7 counterexample packet: minimal header plus `c7opts`. -/
def c7raw : List Nat := packHeader minMsg ++ c7opts

/-- C7 counterexample: the claim as stated is false — decoding a packet
whose option stream is `DHCPMessageType(Discover), Pad, IPLeaseTime(60),
End` yields *only* the message-type option; the lease-time option after
the Pad byte does not appear in the decoded option list. -/
theorem claim7_counterexample :
    (unpackMessage c7raw).map (fun m => m.options.data)
      = .ok [Opt.dhcpMessageType 1] := by
  have hparse : parseOptions c7opts = .ok [Opt.dhcpMessageType 1] :=
    parse_packed_stop [Opt.dhcpMessageType 1]
      0 (packOptions [Opt.ipLeaseTime 60] ++ [255]) (by decide) (Or.inl rfl)
  have hh := unpackMessage_header minMsg c7opts (by decide) (by decide)
    (by decide) (by decide) (by decide) (by decide) (by decide) (by decide)
    (by decide) (by decide) (by decide) (by decide) (by decide) (by decide)
    (by decide) (by decide)
  rw [show c7raw = packHeader minMsg ++ c7opts from rfl, hh, hparse]
  rfl

/-- C5: whenever a session handler raises a `DhcpError` while processing a
datagram, `data_recieved` sends a response — synthesized via
`default_response`, since the raising handler never delivered one — whose
option list carries `DHCPMessageType(Nak)` at position 0 and a
`StatusCode` option with the error's code and message at position 1. -/
theorem claim5_nak_status_positions (request : Message) (e : DhcpError) :
    ∃ resp, sessionRespond request (Except.error e) = some resp ∧
      resp.options.data.head? = some (Opt.dhcpMessageType nakType) ∧
      resp.options.data[1]? = some (Opt.dhcpStatusCode e.code e.msg) :=
  ⟨_, rfl, rfl, rfl⟩

/-- C8: serializing a `PXEPathPrefix` option emits code byte 128 — the
`TFTPServerIPAddress` code its class actually carries — not the
IANA-assigned 210 (`OptionCode.PXELinuxPathPrefix`) that the claim, the
class docstring and the spec name. -/
theorem claim8_pxe_code_bug (p : List Nat) :
    (packOption (Opt.pxePathPfx p)).head? = some tftpServerIPAddressCode ∧
    tftpServerIPAddressCode ≠ pxeLinuxPathCode :=
  ⟨rfl, by decide⟩

/-- C9: `read_duid` reads the duid-type as a single `U8` byte although
`write_duid` emits it as a u16, so reading back the bytes produced by
writing *any* DUID fails — the reader sees the high byte (0) of the 16-bit
type field and raises its unsupported-DUID `ValueError` instead of
returning the DUID. -/
theorem claim9_duid_roundtrip_fails (d : DUID) :
    readDuid (writeDuid d) = .error "Unsupported DUID" := by
  cases d <;> simp [writeDuid, DUID.duid, bytesU16, readDuid, isDuidType]

/-! ## OptionList invariants (C4)

A sequence of `OptionList` operations is modelled as a list of abstract
operations folded over the state; `remove` raises on a missing value, so
the fold runs in `Except`.  `olInv` is the per-code-uniqueness invariant
plus the synchrony of the `opcodes` set with the data list that the class
maintains implicitly. -/

inductive OLOp where
  | app (v : Opt)
  | ext (vs : List Opt)
  | sdef (v : Opt) (idx : Option Nat)
  | rem (v : Opt)

/-- Apply a single operation (`append` / `extend` / `setdefault` /
`remove`). -/
def olApply (l : OptionList) : OLOp → Except String OptionList
  | .app v => .ok (olAppend l v)
  | .ext vs => .ok (olExtend l vs)
  | .sdef v idx => .ok (olSetdefault l v idx)
  | .rem v => olRemove l v

/-- Run a sequence of operations. -/
def olRun (l : OptionList) : List OLOp → Except String OptionList
  | [] => .ok l
  | op :: rest =>
      match olApply l op with
      | .error e => .error e
      | .ok l2 => olRun l2 rest

/-- The `OptionList` invariant: at most one option per code, and the
`opcodes` set holds exactly the codes present in `data`. -/
def olInv (l : OptionList) : Prop :=
  (l.data.map Opt.opcode).Nodup ∧
    ∀ c, c ∈ l.opcodes ↔ c ∈ l.data.map Opt.opcode

theorem map_replaceFirst (data : List Opt) (v : Opt) :
    (replaceFirstByCode data v).map Opt.opcode = data.map Opt.opcode := by
  induction data with
  | nil => rfl
  | cons o rest ih =>
      by_cases hc : o.opcode = v.opcode
      · simp [replaceFirstByCode, hc]
      · simp [replaceFirstByCode, hc, ih]

theorem mem_setAdd (s : List Nat) (x c : Nat) :
    c ∈ setAdd s x ↔ c ∈ s ∨ c = x := by
  unfold setAdd
  by_cases hx : x ∈ s
  · rw [if_pos hx]
    constructor
    · exact Or.inl
    · rintro (h | h)
      · exact h
      · rw [h]; exact hx
  · rw [if_neg hx]
    simp

theorem olAppend_inv (l : OptionList) (v : Opt) (h : olInv l) :
    olInv (olAppend l v) := by
  obtain ⟨hnd, hiff⟩ := h
  unfold olAppend
  by_cases hm : v.opcode ∈ l.opcodes
  · rw [if_pos hm]
    exact ⟨by simpa [map_replaceFirst] using hnd,
      fun c => by simpa [map_replaceFirst] using hiff c⟩
  · rw [if_neg hm]
    have hvn : v.opcode ∉ l.data.map Opt.opcode := fun hc => hm ((hiff _).mpr hc)
    constructor
    · simp [List.nodup_append, hnd, hvn]
    · intro c
      simp only [mem_setAdd, hiff c, List.map_append, List.mem_append,
        List.map_cons, List.map_nil, List.mem_cons, List.not_mem_nil,
        or_false]

theorem olExtend_inv (l : OptionList) (vs : List Opt) (h : olInv l) :
    olInv (olExtend l vs) := by
  induction vs generalizing l with
  | nil => exact h
  | cons v rest ih => exact ih (olAppend l v) (olAppend_inv l v h)

theorem olInit_inv (vs : List Opt) : olInv (olInit vs) :=
  olExtend_inv olEmpty vs ⟨by simp [olEmpty], by simp [olEmpty]⟩

theorem findEqIdx_none (data : List Opt) (v : Opt) (i : Nat)
    (h : ∀ o ∈ data, o ≠ v) : findEqIdx data v i = none := by
  induction data generalizing i with
  | nil => rfl
  | cons o rest ih =>
      have ho : o ≠ v := h o (by simp)
      simp only [findEqIdx, if_neg ho]
      exact ih _ (fun x hx => h x (by simp [hx]))

theorem olInsert_fresh_inv (l : OptionList) (i : Nat) (v : Opt)
    (h : olInv l) (hm : v.opcode ∉ l.opcodes) : olInv (olInsert l i v) := by
  obtain ⟨hnd, hiff⟩ := h
  have hvn : v.opcode ∉ l.data.map Opt.opcode := fun hc => hm ((hiff _).mpr hc)
  have hne : ∀ o ∈ l.data, o ≠ v := by
    intro o ho hov
    exact hvn (by rw [← hov]; exact List.mem_map_of_mem _ ho)
  have hfind : olFind l v = none := findEqIdx_none l.data v 0 hne
  unfold olInsert
  rw [hfind]
  have hperm : List.Perm ((pyListInsert l.data i v).map Opt.opcode)
      (v.opcode :: l.data.map Opt.opcode) := by
    unfold pyListInsert
    have h1 : (l.data.take i ++ v :: l.data.drop i).map Opt.opcode
        = (l.data.take i).map Opt.opcode
          ++ v.opcode :: (l.data.drop i).map Opt.opcode := by simp
    rw [h1]
    have h2 := @List.perm_middle Nat v.opcode
      ((l.data.take i).map Opt.opcode) ((l.data.drop i).map Opt.opcode)
    rw [← List.map_append, List.take_append_drop] at h2
    exact h2
  constructor
  · exact hperm.nodup_iff.mpr (by simp [hnd, hvn])
  · intro c
    rw [hperm.mem_iff]
    simp only [mem_setAdd, hiff c, List.mem_cons]
    tauto

theorem olSetdefault_inv (l : OptionList) (v : Opt) (idx : Option Nat)
    (h : olInv l) : olInv (olSetdefault l v idx) := by
  unfold olSetdefault
  by_cases hm : v.opcode ∈ l.opcodes
  · rw [if_pos hm]
    exact h
  · rw [if_neg hm]
    cases idx with
    | none => exact olAppend_inv l v h
    | some i => exact olInsert_fresh_inv l i v h hm

theorem removeFirst_sublist (data : List Opt) (v : Opt) :
    (listRemoveFirst data v).Sublist data := by
  induction data with
  | nil => simp [listRemoveFirst]
  | cons o rest ih =>
      by_cases ho : o = v
      · simp [listRemoveFirst, ho]
      · simp only [listRemoveFirst, if_neg ho]
        exact ih.cons₂ o

theorem mem_map_removeFirst (data : List Opt) (v : Opt)
    (hnd : (data.map Opt.opcode).Nodup) (hv : v ∈ data) (c : Nat) :
    c ∈ (listRemoveFirst data v).map Opt.opcode
      ↔ c ∈ data.map Opt.opcode ∧ c ≠ v.opcode := by
  induction data with
  | nil => simp at hv
  | cons o rest ih =>
      simp only [List.map_cons, List.nodup_cons] at hnd
      obtain ⟨hno, hndr⟩ := hnd
      by_cases ho : o = v
      · subst ho
        simp only [listRemoveFirst, if_pos rfl, List.map_cons, List.mem_cons]
        constructor
        · intro hc
          refine ⟨Or.inr hc, ?_⟩
          intro hco
          rw [hco] at hc
          exact hno hc
        · rintro ⟨h1 | h1, h2⟩
          · exact absurd h1 h2
          · exact h1
      · have hvrest : v ∈ rest := by
          rcases List.mem_cons.mp hv with h1 | h1
          · exact absurd h1.symm ho
          · exact h1
        have hov : o.opcode ≠ v.opcode := by
          intro hc
          exact hno (hc ▸ List.mem_map_of_mem _ hvrest)
        simp only [listRemoveFirst, if_neg ho, List.map_cons, List.mem_cons,
          ih hndr hvrest]
        constructor
        · rintro (h1 | ⟨h1, h2⟩)
          · exact ⟨Or.inl h1, h1 ▸ hov⟩
          · exact ⟨Or.inr h1, h2⟩
        · rintro ⟨h1 | h1, h2⟩
          · exact Or.inl h1
          · exact Or.inr ⟨h1, h2⟩

theorem olRemove_inv (l : OptionList) (v : Opt) (l2 : OptionList)
    (h : olInv l) (hr : olRemove l v = .ok l2) : olInv l2 := by
  obtain ⟨hnd, hiff⟩ := h
  unfold olRemove at hr
  split at hr
  · split at hr
    · rename_i hv hop
      simp only [Except.ok.injEq] at hr
      subst hr
      constructor
      · exact hnd.sublist ((removeFirst_sublist l.data v).map Opt.opcode)
      · intro c
        simp only [setRemove, List.mem_filter, decide_eq_true_eq,
          mem_map_removeFirst l.data v hnd hv c, hiff c]
    · exact absurd hr (by simp)
  · exact absurd hr (by simp)

theorem olApply_inv (l : OptionList) (op : OLOp) (l2 : OptionList)
    (h : olInv l) (hr : olApply l op = .ok l2) : olInv l2 := by
  cases op with
  | app v =>
      simp only [olApply, Except.ok.injEq] at hr
      exact hr ▸ olAppend_inv l v h
  | ext vs =>
      simp only [olApply, Except.ok.injEq] at hr
      exact hr ▸ olExtend_inv l vs h
  | sdef v idx =>
      simp only [olApply, Except.ok.injEq] at hr
      exact hr ▸ olSetdefault_inv l v idx h
  | rem v => exact olRemove_inv l v l2 h hr

theorem olRun_inv (ops : List OLOp) (l l2 : OptionList)
    (h : olInv l) (hr : olRun l ops = .ok l2) : olInv l2 := by
  induction ops generalizing l with
  | nil =>
      simp only [olRun, Except.ok.injEq] at hr
      exact hr ▸ h
  | cons op rest ih =>
      simp only [olRun] at hr
      split at hr
      · exact absurd hr (by simp)
      · rename_i lmid hmid
        exact ih lmid (olApply_inv l op lmid h hmid) hr

/-- C4 (amended): under construction, `append`, `extend`, `setdefault` and
`remove`, an `OptionList` keeps at most one option per code (and its
`opcodes` set synchronized), with `append` replacing an existing same-code
entry in place.  `insert` is excluded: it looks up by whole-option
equality, so inserting a differently-valued option whose code is present
adds a second entry for that code. -/
theorem claim4_unique_codes (init : List Opt) (ops : List OLOp)
    (l : OptionList) (h : olRun (olInit init) ops = .ok l) :
    (l.data.map Opt.opcode).Nodup ∧
      ∀ c, c ∈ l.opcodes ↔ c ∈ l.data.map Opt.opcode :=
  olRun_inv ops (olInit init) l (olInit_inv init) h

/-- C4 witness: a concrete run — construct with a message-type option,
append a subnet mask, `setdefault` a second message type (a no-op), then
remove the subnet mask. -/
theorem claim4_unique_codes_witness :
    olRun (olInit [Opt.dhcpMessageType 1])
        [OLOp.app (Opt.subnetMask 0), OLOp.sdef (Opt.dhcpMessageType 6)
          (some 0), OLOp.rem (Opt.subnetMask 0)]
      = .ok ⟨[Opt.dhcpMessageType 1], [53]⟩ ∧
    (([Opt.dhcpMessageType 1] : List Opt).map Opt.opcode).Nodup :=
  ⟨rfl,
    (claim4_unique_codes [Opt.dhcpMessageType 1]
      [OLOp.app (Opt.subnetMask 0), OLOp.sdef (Opt.dhcpMessageType 6)
        (some 0), OLOp.rem (Opt.subnetMask 0)]
      ⟨[Opt.dhcpMessageType 1], [53]⟩ rfl).1⟩

/-- C4 counterexample: the claim as stated is false — `insert`ing
`DHCPMessageType(Nak)` at position 0 into a list already holding
`DHCPMessageType(Ack)` does *not* replace the existing entry: both survive
and code 53 appears twice. -/
theorem claim4_counterexample :
    (olInsert (olInit [Opt.dhcpMessageType 5]) 0 (Opt.dhcpMessageType 6)).data
      = [Opt.dhcpMessageType 6, Opt.dhcpMessageType 5] ∧
    ¬ (((olInsert (olInit [Opt.dhcpMessageType 5]) 0
          (Opt.dhcpMessageType 6)).data.map Opt.opcode).Nodup) := by
  constructor
  · decide
  · decide

/-! ## Memory backend lemmas (C3, C6, C10) -/

theorem findSkip_spec (l : List Nat) (g a : Nat) (rest : List Nat)
    (h : findSkip l g = some (a, rest)) : a ∈ l ∧ a ≠ g := by
  induction l with
  | nil => simp [findSkip] at h
  | cons x xs ih =>
      by_cases hx : x = g
      · simp only [findSkip, if_pos hx] at h
        obtain ⟨h1, h2⟩ := ih h
        exact ⟨by simp [h1], h2⟩
      · simp only [findSkip, if_neg hx, Option.some.injEq,
          Prod.mk.injEq] at h
        exact ⟨by simp [← h.1], h.1 ▸ hx⟩

theorem lookupRec_update (rs : List (List Nat × LeaseRecord))
    (k : List Nat) (v : LeaseRecord) :
    lookupRec (updateRec rs k v) k = some v := by
  induction rs with
  | nil => simp [updateRec, lookupRec]
  | cons p rest ih =>
      by_cases hk : p.1 = k
      · simp [updateRec, hk, lookupRec]
      · simp only [updateRec]
        rw [if_neg (by simpa using hk)]
        simp only [lookupRec, List.find?]
        rw [show (p.1 == k) = false by simpa using hk]
        exact ih

/-- The concrete C3/C10 network: 10.0.0.0/29, gateway 10.0.0.1,
dns [10.0.0.2]. -/
def c3net : Net := { netaddr := 167772160, maskLen := 29 }

def c3backend : MemoryBackend :=
  { network := c3net, dns := [167772162], gateway := 167772161,
    default_lease := 3600, addresses := c3net.hostsList }

def c3req : Message :=
  { op := 1, id := 0, client_hw := [1, 2, 3], options := olEmpty }

/-- C3 (amended): on the fresh-address path (no active lease, no usable
requested ip, empty reclaimed list), every interface `next_ip` grants has
its address drawn from the network's host range and distinct from the
gateway, with the network's netmask — but nothing excludes the DNS servers
or static IPs, which the loop does not consult. -/
theorem claim3_fresh_path (now : Nat) (st : MemoryBackend) (req : Message)
    (ifc : Nat × Nat) (st2 : MemoryBackend)
    (hrec : lookupRec st.records req.client_hw = none)
    (hreqip : requestedAddress req = none)
    (hreclaimed : st.reclaimed = [])
    (hsub : ∀ a ∈ st.addresses, a ∈ st.network.hostsList)
    (h : nextIp now st req = (some ifc, st2)) :
    ifc.1 ∈ st.network.hostsList ∧ ifc.1 ≠ st.gateway ∧
      ifc.2 = st.network.netmask := by
  simp only [nextIp, hrec, nextIpTail, hreqip, hreclaimed] at h
  split at h
  · rename_i ip rest hfind
    simp only [Prod.mk.injEq, Option.some.injEq] at h
    obtain ⟨hspec1, hspec2⟩ := findSkip_spec st.addresses st.gateway ip rest hfind
    refine ⟨?_, ?_, ?_⟩
    · rw [← h.1]
      exact hsub ip hspec1
    · rw [← h.1]
      exact hspec2
    · rw [← h.1]
  · simp at h

/-- C3 witness: the amended statement at the concrete /29 backend; the
first fresh grant is 10.0.0.2. -/
theorem claim3_fresh_path_witness :
    (167772162, 4294967288).1 ∈ c3backend.network.hostsList ∧
      (167772162, 4294967288).1 ≠ c3backend.gateway ∧
      (167772162, 4294967288).2 = c3backend.network.netmask :=
  claim3_fresh_path 0 c3backend c3req (167772162, 4294967288)
    ({ c3backend with
        addresses := [167772163, 167772164, 167772165, 167772166] })
    rfl rfl rfl (by decide) (by decide)

/-- C3 counterexample: the claim as stated is false — with dns 10.0.0.2
inside the pool, the first fresh grant is 10.0.0.2 itself: `next_ip` skips
only the gateway, never the DNS servers (or static IPs). -/
theorem claim3_counterexample :
    (nextIp 0 c3backend c3req).1 = some (167772162, 4294967288) ∧
      167772162 ∈ c3backend.dns := by
  constructor
  · decide
  · decide

/-- The stored expiry for a client, 0 when no record exists. -/
def recExpiry (st : MemoryBackend) (hw : List Nat) : Nat :=
  match lookupRec st.records hw with
  | some r => r.expires
  | none => 0

/-- `next_ip` only ever touches `records`, `addresses` and `reclaimed`:
the configuration fields are preserved. -/
theorem nextIp_preserves (now : Nat) (st : MemoryBackend) (req : Message) :
    (nextIp now st req).2.static = st.static ∧
    (nextIp now st req).2.default_lease = st.default_lease ∧
    (nextIp now st req).2.dns = st.dns ∧
    (nextIp now st req).2.gateway = st.gateway ∧
    (nextIp now st req).2.network = st.network := by
  refine ⟨?_, ?_, ?_, ?_, ?_⟩ <;>
    (unfold nextIp nextIpTail
     dsimp only []
     repeat' (first | rfl | split))

/-- The renewal branch of `next_ip`: an unexpired record is returned
unchanged and its expiry refreshed to `now + lease`. -/
theorem nextIp_renew (now : Nat) (st : MemoryBackend) (req : Message)
    (rec : LeaseRecord)
    (hrec : lookupRec st.records req.client_hw = some rec)
    (hexp : now ≤ rec.expires) :
    (nextIp now st req).1 = some rec.record.ipaddr ∧
    (nextIp now st req).2.records
      = updateRec st.records req.client_hw
        ({ rec with expires :=
            now + leaseOrDefault rec.record.lease st.default_lease }) := by
  constructor <;> simp [nextIp, hrec, hexp]

/-- C6: renewal is idempotent — with an unexpired record, two consecutive
`next_ip` calls with no requested ip both return the record's interface,
and each refreshes `expires` to `now + lease`, so the stored expiry is
monotonically non-decreasing across the calls. -/
theorem claim6_renewal (now1 now2 : Nat) (st : MemoryBackend)
    (req : Message) (rec : LeaseRecord)
    (hrec : lookupRec st.records req.client_hw = some rec)
    (hnotexp : now1 ≤ rec.expires)
    (hord : now1 ≤ now2)
    (hwin : now2 ≤ now1 + leaseOrDefault rec.record.lease st.default_lease) :
    (nextIp now1 st req).1 = some rec.record.ipaddr ∧
    (nextIp now2 (nextIp now1 st req).2 req).1 = some rec.record.ipaddr ∧
    recExpiry (nextIp now1 st req).2 req.client_hw
      = now1 + leaseOrDefault rec.record.lease st.default_lease ∧
    recExpiry (nextIp now2 (nextIp now1 st req).2 req).2 req.client_hw
      = now2 + leaseOrDefault rec.record.lease st.default_lease ∧
    recExpiry (nextIp now1 st req).2 req.client_hw
      ≤ recExpiry (nextIp now2 (nextIp now1 st req).2 req).2 req.client_hw := by
  obtain ⟨h11, h12⟩ := nextIp_renew now1 st req rec hrec hnotexp
  have hlook2 : lookupRec (nextIp now1 st req).2.records req.client_hw
      = some ({ rec with expires :=
          now1 + leaseOrDefault rec.record.lease st.default_lease }) := by
    rw [h12]
    exact lookupRec_update _ _ _
  have hdl : (nextIp now1 st req).2.default_lease = st.default_lease :=
    (nextIp_preserves now1 st req).2.1
  obtain ⟨h21, h22⟩ := nextIp_renew now2 (nextIp now1 st req).2 req
    ({ rec with expires :=
        now1 + leaseOrDefault rec.record.lease st.default_lease })
    hlook2 hwin
  rw [hdl] at h22
  have hlook3 : lookupRec (nextIp now2 (nextIp now1 st req).2 req).2.records
      req.client_hw
      = some ({ rec with expires :=
          now2 + leaseOrDefault rec.record.lease st.default_lease }) := by
    rw [h22]
    exact lookupRec_update _ _ _
  refine ⟨h11, h21, ?_, ?_, ?_⟩
  · simp [recExpiry, hlook2]
  · simp [recExpiry, hlook3]
  · simp only [recExpiry, hlook2, hlook3]
    omega

/-- A record for the C6 witness: interface 10.0.0.3/29 expiring at 100. -/
def c6rec : LeaseRecord :=
  { record := { ipaddr := (167772163, 4294967288) }, expires := 100 }

def c6backend : MemoryBackend :=
  { c3backend with records := [([1, 2, 3], c6rec)] }

/-- C6 witness: the renewal theorem evaluated at the concrete backend
(first call at time 50, second at time 60, default lease 3600). -/
theorem claim6_renewal_witness :
    (nextIp 50 c6backend c3req).1 = some c6rec.record.ipaddr ∧
    (nextIp 60 (nextIp 50 c6backend c3req).2 c3req).1
      = some c6rec.record.ipaddr ∧
    recExpiry (nextIp 50 c6backend c3req).2 c3req.client_hw
      = 50 + leaseOrDefault c6rec.record.lease c6backend.default_lease ∧
    recExpiry (nextIp 60 (nextIp 50 c6backend c3req).2 c3req).2
        c3req.client_hw
      = 60 + leaseOrDefault c6rec.record.lease c6backend.default_lease ∧
    recExpiry (nextIp 50 c6backend c3req).2 c3req.client_hw
      ≤ recExpiry (nextIp 60 (nextIp 50 c6backend c3req).2 c3req).2
          c3req.client_hw :=
  claim6_renewal 50 60 c6backend c3req c6rec rfl (by decide) (by decide)
    (by decide)

/-- C10 (amended): for a client *without* a static reservation, a
successful grant stores a lease record holding exactly the granted
interface — the same address `assign` advertises in `your_addr` — expiring
at `now + default_lease`.  (For static clients the stored record keeps the
static interface, which can differ from `your_addr`; see the
counterexample.) -/
theorem claim10_dynamic_assign (now : Nat) (st : MemoryBackend)
    (req : Message) (ifc : Nat × Nat) (st2 : MemoryBackend)
    (hnext : nextIp now st req = (some ifc, st2))
    (hstatic : lookupStatic st.static req.client_hw = none) :
    (assign now st req).1.your_addr = ifc.1 ∧
    lookupRec (assign now st req).2.records req.client_hw
      = some ⟨{ ipaddr := ifc }, now + st.default_lease⟩ := by
  have hpr := nextIp_preserves now st req
  have hsnd : (nextIp now st req).2 = st2 := by rw [hnext]
  have hst2 : st2.static = st.static := by
    rw [← hsnd]
    exact hpr.1
  have hdl2 : st2.default_lease = st.default_lease := by
    rw [← hsnd]
    exact hpr.2.1
  constructor
  · simp [assign, hnext, hst2, hstatic, replyMessage, leaseOrDefault]
  · simp [assign, hnext, hst2, hstatic, leaseOrDefault, lookupRec_update,
      hdl2]

/-- C10 witness: the amended statement at the /29 backend for a dynamic
client — the first grant is 10.0.0.2 and the stored record carries it. -/
theorem claim10_dynamic_assign_witness :
    (assign 0 c3backend c3req).1.your_addr = (167772162, 4294967288).1 ∧
    lookupRec (assign 0 c3backend c3req).2.records c3req.client_hw
      = some ⟨{ ipaddr := (167772162, 4294967288) },
          0 + c3backend.default_lease⟩ :=
  claim10_dynamic_assign 0 c3backend c3req (167772162, 4294967288)
    ({ c3backend with
        addresses := [167772163, 167772164, 167772165, 167772166] })
    (by decide) rfl

/-- The C10 counterexample backend: client `[9,9,9]` has a static
reservation for 10.0.0.5, but `next_ip` never consults `static`. -/
def c10backend : MemoryBackend :=
  { c3backend with
      static := [([9, 9, 9], { ipaddr := (167772165, 4294967288) })] }

def c10req : Message :=
  { op := 1, id := 0, client_hw := [9, 9, 9], options := olEmpty }

/-- C10 counterexample: the claim as stated is false for static clients —
the response advertises the pool address 10.0.0.2 in `your_addr`, but the
lease record stored for the client holds the *static* interface 10.0.0.5,
a different address. -/
theorem claim10_counterexample :
    (assign 0 c10backend c10req).1.your_addr = 167772162 ∧
    lookupRec (assign 0 c10backend c10req).2.records [9, 9, 9]
      = some ⟨{ ipaddr := (167772165, 4294967288) }, 3600⟩ ∧
    (167772165 : Nat) ≠ 167772162 := by
  refine ⟨by decide, by decide, by decide⟩

end PyDhcp
